import Mathlib

/-!
Verification of the match-resolution and falling-block core of the
puzzle-game bundle: the falling-capsule (pills) board, the refill-in-place
swap board, and the pair-matching tile board.  Definitions are shallow
embeddings of the TypeScript source; theorems settle the specification
claims about them.
-/

namespace Pills

/-- Cell symbol palette of the pills board, including the `EMPTY` sentinel. -/
inductive BlockType
  | EMPTY
  | RED
  | BLUE
  | YELLOW
  | GREEN
deriving DecidableEq, Repr

/-- One grid cell: its symbol and whether it is a blocking virus. -/
structure Block where
  type : BlockType
  isVirus : Bool
deriving DecidableEq, Repr

/-- The cell value used for empty positions. -/
def emptyBlock : Block := ⟨BlockType.EMPTY, false⟩

/-- The pills grid, a row-major 2D array of cells. -/
abbrev PGrid := List (List Block)

/-- Read the cell at row `r`, column `c`; out-of-range reads give `emptyBlock`. -/
def getCell (g : PGrid) (r c : Nat) : Block := (g.getD r []).getD c emptyBlock

/-- Write the cell at row `r`, column `c`; out-of-range writes are no-ops. -/
def setCell (g : PGrid) (r c : Nat) (b : Block) : PGrid :=
  g.set r ((g.getD r []).set c b)

/-- The grid has exactly `rows` rows of exactly `cols` cells each. -/
def WF (rows cols : Nat) (g : PGrid) : Prop :=
  g.length = rows ∧ ∀ row ∈ g, row.length = cols

/-- A two-cell falling pill, as in the source: two positions, two colors,
and an orientation flag (`true` means horizontal). -/
structure Pill where
  pos1 : Int × Int
  pos2 : Int × Int
  color1 : BlockType
  color2 : BlockType
  horiz : Bool
deriving DecidableEq

/-- Bounds check of `isValidPos` from the source. -/
def isValidPos (rows cols : Nat) (p : Int × Int) : Bool :=
  decide (0 ≤ p.1) && decide (p.1 < (rows : Int)) &&
    decide (0 ≤ p.2) && decide (p.2 < (cols : Int))

/-- `canMove` from the source: the pill may move by `(dRow, dCol)` when both
moved cells are valid positions and both target cells are empty. -/
def canMove (rows cols : Nat) (g : PGrid) (pill : Pill) (dRow dCol : Int) : Bool :=
  let next1 : Int × Int := (pill.pos1.1 + dRow, pill.pos1.2 + dCol)
  let next2 : Int × Int := (pill.pos2.1 + dRow, pill.pos2.2 + dCol)
  if ¬ (isValidPos rows cols next1 && isValidPos rows cols next2) then false
  else if (getCell g next1.1.toNat next1.2.toNat).type ≠ BlockType.EMPTY then false
  else if (getCell g next2.1.toNat next2.2.toNat).type ≠ BlockType.EMPTY then false
  else true

/-- In-bounds as a proposition: row and column are non-negative and within
the grid dimensions. -/
def inBoundsPos (rows cols : Nat) (p : Int × Int) : Prop :=
  0 ≤ p.1 ∧ p.1 < (rows : Int) ∧ 0 ≤ p.2 ∧ p.2 < (cols : Int)

/-- Whole game state around the grid: current falling pill, score, game-over flag. -/
structure PillState where
  grid : PGrid
  activePill : Option Pill
  score : Nat
  gameOver : Bool
deriving DecidableEq

/-- `spawnPill` from the source, with the two random colors supplied as
arguments: a no-op when the game is over or the grid is absent; flips
`gameOver` when either fixed spawn cell (0,3) or (0,4) is occupied;
otherwise installs the new pill at the fixed spawn position. -/
def spawnPill (s : PillState) (color1 color2 : BlockType) : PillState :=
  if s.gameOver ∨ s.grid.length = 0 then s
  else if (getCell s.grid 0 3).type ≠ BlockType.EMPTY ∨
      (getCell s.grid 0 4).type ≠ BlockType.EMPTY then
    { s with gameOver := true }
  else
    { s with activePill := some ⟨(0, 3), (0, 4), color1, color2, true⟩ }

end Pills

namespace Pills

/-- C7: `canMove` returns true exactly when both of the pill's cells, after
applying the delta, are in bounds and both target grid cells are Empty. -/
theorem canMove_iff (rows cols : Nat) (g : PGrid) (pill : Pill) (dRow dCol : Int) :
    canMove rows cols g pill dRow dCol = true ↔
      (inBoundsPos rows cols (pill.pos1.1 + dRow, pill.pos1.2 + dCol) ∧
       inBoundsPos rows cols (pill.pos2.1 + dRow, pill.pos2.2 + dCol) ∧
       (getCell g (pill.pos1.1 + dRow).toNat (pill.pos1.2 + dCol).toNat).type
         = BlockType.EMPTY ∧
       (getCell g (pill.pos2.1 + dRow).toNat (pill.pos2.2 + dCol).toNat).type
         = BlockType.EMPTY) := by
  simp only [canMove, inBoundsPos, isValidPos, Bool.and_eq_true, decide_eq_true_eq]
  by_cases h1 : 0 ≤ pill.pos1.1 + dRow ∧ pill.pos1.1 + dRow < (rows : Int) ∧
      0 ≤ pill.pos1.2 + dCol ∧ pill.pos1.2 + dCol < (cols : Int) <;>
    by_cases h2 : 0 ≤ pill.pos2.1 + dRow ∧ pill.pos2.1 + dRow < (rows : Int) ∧
      0 ≤ pill.pos2.2 + dCol ∧ pill.pos2.2 + dCol < (cols : Int) <;>
    simp_all

/-- C8: when the game is not over, the grid is present, and either fixed
spawn cell (0,3) or (0,4) is occupied, `spawnPill` flips `gameOver` and
leaves the active pill, the grid and the score unchanged: the blocked spawn
is a defined game-state outcome, not an error. -/
theorem spawnPill_blocked (s : PillState) (c1 c2 : BlockType)
    (hgo : s.gameOver = false) (hg : s.grid.length ≠ 0)
    (hblock : (getCell s.grid 0 3).type ≠ BlockType.EMPTY ∨
      (getCell s.grid 0 4).type ≠ BlockType.EMPTY) :
    (spawnPill s c1 c2).gameOver = true ∧
      (spawnPill s c1 c2).activePill = s.activePill ∧
      (spawnPill s c1 c2).grid = s.grid ∧
      (spawnPill s c1 c2).score = s.score := by
  unfold spawnPill
  rw [if_neg (by simp [hgo, hg]), if_pos hblock]
  exact ⟨rfl, rfl, rfl, rfl⟩

/-- A concrete one-cell-blocked state used to witness `spawnPill_blocked`. -/
def blockedState : PillState :=
  { grid := [[emptyBlock, emptyBlock, emptyBlock, ⟨BlockType.RED, false⟩,
      emptyBlock, emptyBlock, emptyBlock, emptyBlock, emptyBlock, emptyBlock]]
    activePill := none
    score := 700
    gameOver := false }

/-- Witness for C8: the blocked spawn on a concrete state. -/
theorem spawnPill_blocked_witness :
    (spawnPill blockedState BlockType.RED BlockType.BLUE).gameOver = true ∧
      (spawnPill blockedState BlockType.RED BlockType.BLUE).activePill = none ∧
      (spawnPill blockedState BlockType.RED BlockType.BLUE).grid
        = blockedState.grid ∧
      (spawnPill blockedState BlockType.RED BlockType.BLUE).score = 700 := by
  have h := spawnPill_blocked blockedState BlockType.RED BlockType.BLUE
    (by decide) (by decide) (Or.inl (by decide))
  exact ⟨h.1, h.2.1, h.2.2.1, h.2.2.2⟩

/-- Indices `idx-1, idx-2, ..., idx-count` emitted when a run of length
`count` ends just before position `idx`, in the order the source pushes them. -/
def flushIdx (idx count : Nat) : List Nat :=
  (List.range count).map (fun k => idx - (k + 1))

/-- The run scan of `checkMatches` over one line of cell types, carrying the
current position `idx`, run length `count` and run symbol `cur`: it emits the
indices of every run of length at least 3 of a non-Empty symbol. -/
def scanRunAux : Nat → Nat → BlockType → List BlockType → List Nat
  | idx, count, cur, [] =>
    if 3 ≤ count ∧ cur ≠ BlockType.EMPTY then flushIdx idx count else []
  | idx, count, cur, x :: xs =>
    if x ≠ BlockType.EMPTY ∧ x = cur then
      scanRunAux (idx + 1) (count + 1) cur xs
    else
      (if 3 ≤ count then flushIdx idx count else []) ++ scanRunAux (idx + 1) 1 x xs

/-- The run scan of a full line, started from the source's initial state
`count = 0`, `currentType = EMPTY`. -/
def scanRun (l : List BlockType) : List Nat := scanRunAux 0 0 BlockType.EMPTY l

/-- The types of row `r`, read left to right over `cols` columns. -/
def rowTypes (cols : Nat) (g : PGrid) (r : Nat) : List BlockType :=
  (List.range cols).map (fun c => (getCell g r c).type)

/-- The types of column `c`, read top to bottom over `rows` rows. -/
def colTypes (rows : Nat) (g : PGrid) (c : Nat) : List BlockType :=
  (List.range rows).map (fun r => (getCell g r c).type)

/-- The `toClear` list of `checkMatches`: horizontal run positions for every
row, then vertical run positions for every column. -/
def toClearGrid (rows cols : Nat) (g : PGrid) : List (Nat × Nat) :=
  ((List.range rows).flatMap
      (fun r => (scanRun (rowTypes cols g r)).map (fun j => (r, j)))) ++
    ((List.range cols).flatMap
      (fun c => (scanRun (colTypes rows g c)).map (fun j => (j, c))))

/-- Duplicate removal keeping first occurrences, as the source's
`filter((v,i,a) => findIndex(...) === i)` does. -/
def dedupFirst : List (Nat × Nat) → List (Nat × Nat) → List (Nat × Nat)
  | _, [] => []
  | seen, p :: ps =>
    if p ∈ seen then dedupFirst seen ps else p :: dedupFirst (p :: seen) ps

/-- The `uniqueClear` list of `checkMatches`. -/
def uniqueClear (rows cols : Nat) (g : PGrid) : List (Nat × Nat) :=
  dedupFirst [] (toClearGrid rows cols g)

/-- Clear every listed position to the empty cell. -/
def clearCells (g : PGrid) (l : List (Nat × Nat)) : PGrid :=
  l.foldl (fun acc p => setCell acc p.1 p.2 emptyBlock) g

/-- The score delta of one `checkMatches` pass: 100 points per cleared cell. -/
def scoreDelta (rows cols : Nat) (g : PGrid) : Nat :=
  (uniqueClear rows cols g).length * 100

/-- One conditional gravity move at position `(r, c)`: a non-empty,
non-virus cell above an empty cell falls one row, setting the moved flag. -/
def gravStep (st : PGrid × Bool) (p : Nat × Nat) : PGrid × Bool :=
  if (getCell st.1 p.1 p.2).type ≠ BlockType.EMPTY ∧
      (getCell st.1 p.1 p.2).isVirus = false ∧
      (getCell st.1 (p.1 + 1) p.2).type = BlockType.EMPTY then
    (setCell (setCell st.1 (p.1 + 1) p.2 (getCell st.1 p.1 p.2)) p.1 p.2 emptyBlock,
      true)
  else st

/-- The order `applyGravity` visits cells: columns left to right, rows from
the second-to-last upward. -/
def gravOrder (rows cols : Nat) : List (Nat × Nat) :=
  (List.range cols).flatMap (fun c => ((List.range (rows - 1)).reverse).map (fun r => (r, c)))

/-- One full `applyGravity` pass: the grid after all moves and whether any
cell moved. -/
def applyGravity (rows cols : Nat) (g : PGrid) : PGrid × Bool :=
  (gravOrder rows cols).foldl gravStep (g, false)

/-- `n` consecutive `applyGravity` passes. -/
def applyGravityN (rows cols : Nat) : Nat → PGrid → PGrid
  | 0, g => g
  | n + 1, g => applyGravityN rows cols n (applyGravity rows cols g).1

/-- One clear-then-gravity round of the cascade: if `checkMatches` finds
nothing the grid is unchanged (stable); otherwise the matched cells are
cleared and gravity runs to rest (a pass count sufficient for any grid). -/
def resolveStep (rows cols : Nat) (g : PGrid) : PGrid :=
  if toClearGrid rows cols g = [] then g
  else applyGravityN rows cols (rows * (rows * cols))
    (clearCells g (uniqueClear rows cols g))

/-- `n` rounds of the cascade. -/
def resolveN (rows cols : Nat) : Nat → PGrid → PGrid
  | 0, g => g
  | n + 1, g => resolveN rows cols n (resolveStep rows cols g)

/-- Number of non-empty cells among the `rows × cols` in-range positions. -/
def nonEmptyCount (rows cols : Nat) (g : PGrid) : Nat :=
  ((List.range rows).product (List.range cols)).countP
    (fun p => decide ((getCell g p.1 p.2).type ≠ BlockType.EMPTY))

/-- Length of the leading segment of `l` that continues a run of symbol
`cur` (non-Empty cells equal to `cur`). -/
def contRun (cur : BlockType) (l : List BlockType) : Nat :=
  (l.takeWhile (fun x => decide (x ≠ BlockType.EMPTY) && decide (x = cur))).length

/-- Whether the line contains 3 consecutive equal non-Empty symbols. -/
def hasRun3b : List BlockType → Bool
  | a :: b :: c :: t =>
    (decide (a ≠ BlockType.EMPTY) && decide (a = b) && decide (a = c)) ||
      hasRun3b (b :: c :: t)
  | _ => false

theorem flushIdx_ne_nil {idx count : Nat} (h : 3 ≤ count) : flushIdx idx count ≠ [] := by
  simp only [flushIdx, ne_eq, List.map_eq_nil_iff, List.range_eq_nil]
  omega

theorem contRun_cons (cur x : BlockType) (xs : List BlockType) :
    contRun cur (x :: xs) =
      if x ≠ BlockType.EMPTY ∧ x = cur then contRun cur xs + 1 else 0 := by
  by_cases h1 : x = BlockType.EMPTY
  · rw [if_neg (fun hc => hc.1 h1)]
    simp [contRun, List.takeWhile_cons, h1]
  · by_cases h2 : x = cur
    · rw [if_pos ⟨h1, h2⟩]
      subst h2
      simp [contRun, List.takeWhile_cons, h1]
    · rw [if_neg (fun hc => h2 hc.2)]
      simp [contRun, List.takeWhile_cons, h1, h2]

theorem hasRun3b_cons_iff (x : BlockType) (xs : List BlockType) :
    hasRun3b (x :: xs) = true ↔
      ((x ≠ BlockType.EMPTY ∧ 2 ≤ contRun x xs) ∨ hasRun3b xs = true) := by
  match xs with
  | [] => simp [hasRun3b, contRun]
  | [b] =>
    constructor
    · intro h; cases h
    · rintro (⟨hx, h2⟩ | h)
      · exfalso
        have hc : contRun x [b] ≤ 1 := by
          rw [contRun_cons]
          by_cases hb : b ≠ BlockType.EMPTY ∧ b = x
          · rw [if_pos hb]
            simp [contRun]
          · rw [if_neg hb]
            omega
        omega
      · cases h
  | b :: c :: t =>
    show (_ || _) = true ↔ _
    rw [Bool.or_eq_true]
    constructor
    · rintro (h | h)
      · left
        simp only [Bool.and_eq_true, decide_eq_true_eq] at h
        obtain ⟨⟨hne, hb⟩, hc⟩ := h
        refine ⟨hne, ?_⟩
        rw [contRun_cons, if_pos ⟨hb ▸ hne, hb.symm⟩, contRun_cons,
          if_pos ⟨hc ▸ hne, hc.symm⟩]
        omega
      · right; exact h
    · rintro (⟨hne, h2⟩ | h)
      · rw [contRun_cons] at h2
        by_cases hb : b ≠ BlockType.EMPTY ∧ b = x
        · rw [if_pos hb, contRun_cons] at h2
          by_cases hc : c ≠ BlockType.EMPTY ∧ c = x
          · left
            simp only [Bool.and_eq_true, decide_eq_true_eq]
            exact ⟨⟨hne, hb.2.symm⟩, hc.2.symm⟩
          · rw [if_neg hc] at h2; omega
        · rw [if_neg hb] at h2; omega
      · right; exact h

/-- A line headed by `x` has no run of 3 exactly when `x` does not start one
and the tail has none. -/
theorem hasRun3b_cons_false (x : BlockType) (xs : List BlockType) :
    hasRun3b (x :: xs) = false ↔
      ((x ≠ BlockType.EMPTY → contRun x xs ≤ 1) ∧ hasRun3b xs = false) := by
  have h := hasRun3b_cons_iff x xs
  constructor
  · intro hf
    constructor
    · intro hxe
      by_contra hge
      push_neg at hge
      have ht : hasRun3b (x :: xs) = true := h.mpr (Or.inl ⟨hxe, by omega⟩)
      rw [hf] at ht
      cases ht
    · cases hb : hasRun3b xs
      · rfl
      · have ht : hasRun3b (x :: xs) = true := h.mpr (Or.inr hb)
        rw [hf] at ht
        cases ht
  · rintro ⟨h1, h2⟩
    cases hb : hasRun3b (x :: xs)
    · rfl
    · rcases h.mp hb with ⟨hxe, hge⟩ | hx2
      · have := h1 hxe
        omega
      · rw [h2] at hx2
        cases hx2

/-- The scan of a line emits nothing exactly when neither the run carried in
from the state nor any run inside the line reaches length 3. -/
theorem scanRunAux_eq_nil (l : List BlockType) :
    ∀ idx count cur, (2 ≤ count → cur ≠ BlockType.EMPTY) →
      (scanRunAux idx count cur l = [] ↔
        (¬ (3 ≤ count + contRun cur l ∧ cur ≠ BlockType.EMPTY) ∧
          hasRun3b l = false)) := by
  induction l with
  | nil =>
    intro idx count cur _
    simp only [scanRunAux, contRun, List.takeWhile_nil, List.length_nil,
      Nat.add_zero, hasRun3b, and_true]
    by_cases h : 3 ≤ count ∧ cur ≠ BlockType.EMPTY
    · rw [if_pos h]
      simp only [iff_false_intro (flushIdx_ne_nil h.1)]
      tauto
    · rw [if_neg h]
      tauto
  | cons x xs ih =>
    intro idx count cur hinv
    rw [show scanRunAux idx count cur (x :: xs) =
        (if x ≠ BlockType.EMPTY ∧ x = cur then scanRunAux (idx + 1) (count + 1) cur xs
         else (if 3 ≤ count then flushIdx idx count else []) ++
           scanRunAux (idx + 1) 1 x xs) from rfl]
    by_cases hx : x ≠ BlockType.EMPTY ∧ x = cur
    · rw [if_pos hx]
      have hcur : cur ≠ BlockType.EMPTY := hx.2 ▸ hx.1
      rw [ih (idx + 1) (count + 1) cur (fun _ => hcur)]
      rw [contRun_cons, if_pos hx, hasRun3b_cons_false]
      constructor
      · rintro ⟨h1, h2⟩
        refine ⟨fun ⟨hc, hd⟩ => h1 ⟨by omega, hd⟩, fun hxe => ?_, h2⟩
        by_contra hge
        push_neg at hge
        rw [hx.2] at hge
        exact h1 ⟨by omega, hcur⟩
      · rintro ⟨hA, _, hB⟩
        exact ⟨fun ⟨hc, hd⟩ => hA ⟨by omega, hd⟩, hB⟩
    · rw [if_neg hx]
      have hrec := ih (idx + 1) 1 x (by omega)
      rw [List.append_eq_nil, hrec]
      have hcont : contRun cur (x :: xs) = 0 := by rw [contRun_cons, if_neg hx]
      rw [hcont, Nat.add_zero, hasRun3b_cons_false]
      have hflush : ((if 3 ≤ count then flushIdx idx count else []) = []) ↔ count < 3 := by
        by_cases h3 : 3 ≤ count
        · rw [if_pos h3]
          constructor
          · intro h
            exact absurd h (flushIdx_ne_nil h3)
          · intro h
            exact absurd h (by omega)
        · rw [if_neg h3]
          simp only [true_iff]
          omega
      rw [hflush]
      constructor
      · rintro ⟨hc3, hA1, hB1⟩
        refine ⟨fun ⟨hc, _⟩ => by omega, fun hxe => ?_, hB1⟩
        by_contra hge
        push_neg at hge
        exact hA1 ⟨by omega, hxe⟩
      · rintro ⟨hA, hx1, hB1⟩
        refine ⟨?_, fun ⟨hc, hxe⟩ => ?_, hB1⟩
        · by_contra hge
          push_neg at hge
          exact hA ⟨by omega, hinv (by omega)⟩
        · have := hx1 hxe
          omega

/-- The full-line scan emits nothing exactly when the line has no run of 3. -/
theorem scanRun_eq_nil (l : List BlockType) :
    scanRun l = [] ↔ hasRun3b l = false := by
  rw [scanRun, scanRunAux_eq_nil l 0 0 BlockType.EMPTY (by omega)]
  simp

/-- `hasRun3b` agrees with the declarative "three consecutive equal
non-Empty cells" property. -/
theorem hasRun3b_iff_exists (l : List BlockType) :
    hasRun3b l = true ↔
      ∃ i, i + 2 < l.length ∧
        l.getD i BlockType.EMPTY ≠ BlockType.EMPTY ∧
        l.getD i BlockType.EMPTY = l.getD (i + 1) BlockType.EMPTY ∧
        l.getD (i + 1) BlockType.EMPTY = l.getD (i + 2) BlockType.EMPTY := by
  induction l with
  | nil => simp [hasRun3b]
  | cons a tail ih =>
    match tail, ih with
    | [], _ => simp [hasRun3b]
    | [b], _ =>
      simp only [hasRun3b, List.length_cons, List.length_nil]
      constructor
      · intro h; cases h
      · rintro ⟨i, hi, _⟩; omega
    | b :: c :: t, ih =>
      show (_ || _) = true ↔ _
      rw [Bool.or_eq_true, ih]
      constructor
      · rintro (h | ⟨i, hi, h1, h2, h3⟩)
        · simp only [Bool.and_eq_true, decide_eq_true_eq] at h
          refine ⟨0, ?_, ?_, ?_, ?_⟩
          · simp only [List.length_cons]
            omega
          · simpa using h.1.1
          · simpa using h.1.2
          · simpa using h.1.2.symm.trans h.2
        · refine ⟨i + 1, ?_, ?_, ?_, ?_⟩
          · simp only [List.length_cons] at hi ⊢
            omega
          · simpa using h1
          · simpa using h2
          · simpa using h3
      · rintro ⟨i, hi, h1, h2, h3⟩
        match i with
        | 0 =>
          left
          simp only [List.getD_cons_zero, List.getD_cons_succ] at h1 h2 h3
          simp only [Bool.and_eq_true, decide_eq_true_eq]
          exact ⟨⟨h1, h2⟩, h2.trans h3⟩
        | j + 1 =>
          right
          refine ⟨j, ?_, ?_, ?_, ?_⟩
          · simp only [List.length_cons] at hi ⊢
            omega
          · simpa using h1
          · simpa using h2
          · simpa using h3

theorem getD_map_range (f : Nat → BlockType) (n j : Nat) (h : j < n) :
    ((List.range n).map f).getD j BlockType.EMPTY = f j := by
  rw [List.getD_eq_getElem?_getD, List.getElem?_map, List.getElem?_range h]
  rfl

/-- The scan of a line given by an index function emits nothing exactly when
no three consecutive indices carry equal non-Empty symbols. -/
theorem scanRun_line_nil (f : Nat → BlockType) (n : Nat) :
    scanRun ((List.range n).map f) = [] ↔
      ¬ ∃ i, i + 2 < n ∧ f i ≠ BlockType.EMPTY ∧
        f i = f (i + 1) ∧ f (i + 1) = f (i + 2) := by
  rw [scanRun_eq_nil]
  have hb : (hasRun3b ((List.range n).map f) = false) ↔
      ¬ (hasRun3b ((List.range n).map f) = true) := by
    cases hasRun3b ((List.range n).map f) <;> simp
  rw [hb, hasRun3b_iff_exists]
  apply not_congr
  constructor
  · rintro ⟨i, hi, h1, h2, h3⟩
    rw [List.length_map, List.length_range] at hi
    rw [getD_map_range f n i (by omega), getD_map_range f n (i + 1) (by omega)] at h2
    rw [getD_map_range f n (i + 1) (by omega), getD_map_range f n (i + 2) (by omega)] at h3
    rw [getD_map_range f n i (by omega)] at h1
    exact ⟨i, hi, h1, h2, h3⟩
  · rintro ⟨i, hi, h1, h2, h3⟩
    refine ⟨i, ?_, ?_, ?_, ?_⟩
    · rw [List.length_map, List.length_range]
      exact hi
    · rwa [getD_map_range f n i (by omega)]
    · rw [getD_map_range f n i (by omega), getD_map_range f n (i + 1) (by omega)]
      exact h2
    · rw [getD_map_range f n (i + 1) (by omega), getD_map_range f n (i + 2) (by omega)]
      exact h3

/-- C4: the `toClear` computation of `checkMatches` is empty exactly when no
row and no column of the grid contains 3 or more consecutive cells with
equal non-Empty symbols. -/
theorem findMatches_empty_iff (rows cols : Nat) (g : PGrid) :
    toClearGrid rows cols g = [] ↔
      ((¬ ∃ r c, r < rows ∧ c + 2 < cols ∧
          (getCell g r c).type ≠ BlockType.EMPTY ∧
          (getCell g r c).type = (getCell g r (c + 1)).type ∧
          (getCell g r (c + 1)).type = (getCell g r (c + 2)).type) ∧
       (¬ ∃ c r, c < cols ∧ r + 2 < rows ∧
          (getCell g r c).type ≠ BlockType.EMPTY ∧
          (getCell g r c).type = (getCell g (r + 1) c).type ∧
          (getCell g (r + 1) c).type = (getCell g (r + 2) c).type)) := by
  rw [toClearGrid, List.append_eq_nil]
  have hH : ((List.range rows).flatMap
      (fun r => (scanRun (rowTypes cols g r)).map (fun j => (r, j))) = []) ↔
      ∀ r, r < rows → scanRun (rowTypes cols g r) = [] := by
    rw [List.flatMap_eq_nil_iff]
    constructor
    · intro h r hr
      have := h r (List.mem_range.mpr hr)
      rwa [List.map_eq_nil_iff] at this
    · intro h r hr
      rw [List.map_eq_nil_iff]
      exact h r (List.mem_range.mp hr)
  have hV : ((List.range cols).flatMap
      (fun c => (scanRun (colTypes rows g c)).map (fun j => (j, c))) = []) ↔
      ∀ c, c < cols → scanRun (colTypes rows g c) = [] := by
    rw [List.flatMap_eq_nil_iff]
    constructor
    · intro h c hc
      have := h c (List.mem_range.mpr hc)
      rwa [List.map_eq_nil_iff] at this
    · intro h c hc
      rw [List.map_eq_nil_iff]
      exact h c (List.mem_range.mp hc)
  rw [hH, hV]
  constructor
  · rintro ⟨hh, hv⟩
    constructor
    · rintro ⟨r, c, hr, hrest⟩
      have := (scanRun_line_nil (fun c => (getCell g r c).type) cols).mp (hh r hr)
      exact this ⟨c, hrest⟩
    · rintro ⟨c, r, hc, hrest⟩
      have := (scanRun_line_nil (fun r => (getCell g r c).type) rows).mp (hv c hc)
      exact this ⟨r, hrest⟩
  · rintro ⟨hh, hv⟩
    constructor
    · intro r hr
      rw [show rowTypes cols g r =
        (List.range cols).map (fun c => (getCell g r c).type) from rfl]
      rw [scanRun_line_nil]
      rintro ⟨c, hrest⟩
      exact hh ⟨r, c, hr, hrest⟩
    · intro c hc
      rw [show colTypes rows g c =
        (List.range rows).map (fun r => (getCell g r c).type) from rfl]
      rw [scanRun_line_nil]
      rintro ⟨r, hrest⟩
      exact hv ⟨c, r, hc, hrest⟩

theorem getD_set_self_lt {α : Type} (l : List α) {i : Nat} (x d : α) (h : i < l.length) :
    (l.set i x).getD i d = x := by
  rw [List.getD_eq_getElem?_getD, List.getElem?_set_self h]
  rfl

theorem getD_set_ne_list {α : Type} (l : List α) {i j : Nat} (x d : α) (h : i ≠ j) :
    (l.set i x).getD j d = l.getD j d := by
  rw [List.getD_eq_getElem?_getD, List.getElem?_set_ne h, ← List.getD_eq_getElem?_getD]

/-- A write at one position leaves every other position unchanged. -/
theorem getCell_setCell_ne (g : PGrid) (a b r c : Nat) (v : Block)
    (h : r ≠ a ∨ c ≠ b) :
    getCell (setCell g a b v) r c = getCell g r c := by
  by_cases hra : r = a
  · subst hra
    rcases h with h | h
    · exact absurd rfl h
    · show ((g.set r ((g.getD r []).set b v)).getD r []).getD c emptyBlock = _
      by_cases hlen : r < g.length
      · rw [getD_set_self_lt _ _ _ hlen, getD_set_ne_list _ _ _ (fun he => h he.symm)]
        rfl
      · rw [List.set_eq_of_length_le (by omega)]
        rfl
  · show ((g.set a ((g.getD a []).set b v)).getD r []).getD c emptyBlock = _
    rw [getD_set_ne_list _ _ _ (fun he => hra he.symm)]
    rfl

/-- A write at an in-range position of a well-sized row is read back. -/
theorem getCell_setCell_self (g : PGrid) (a b : Nat) (v : Block)
    (ha : a < g.length) (hb : b < (g.getD a []).length) :
    getCell (setCell g a b v) a b = v := by
  show ((g.set a ((g.getD a []).set b v)).getD a []).getD b emptyBlock = v
  rw [getD_set_self_lt _ _ _ ha, getD_set_self_lt _ _ _ hb]

/-- Every row of a well-formed grid that is addressed in range has `cols` cells. -/
theorem WF_row_length {rows cols : Nat} {g : PGrid} (hwf : WF rows cols g)
    {a : Nat} (ha : a < rows) : (g.getD a []).length = cols := by
  have hlen : a < g.length := by
    rw [hwf.1]
    exact ha
  have hmem : g.getD a [] ∈ g := by
    rw [List.getD_eq_getElem?_getD, List.getElem?_eq_getElem hlen]
    simpa using List.getElem_mem hlen
  exact hwf.2 _ hmem

/-- In-range reads after an in-range write on a well-formed grid. -/
theorem getCell_setCell_self_wf {rows cols : Nat} {g : PGrid} (hwf : WF rows cols g)
    {a b : Nat} (ha : a < rows) (hb : b < cols) (v : Block) :
    getCell (setCell g a b v) a b = v := by
  apply getCell_setCell_self
  · rw [hwf.1]
    exact ha
  · rw [WF_row_length hwf ha]
    exact hb

/-- A written cell is either unchanged or holds the written value. -/
theorem getCell_setCell_cases (g : PGrid) (a b r c : Nat) (v : Block) :
    getCell (setCell g a b v) r c = getCell g r c ∨
      getCell (setCell g a b v) r c = v := by
  by_cases h : r = a ∧ c = b
  · obtain ⟨rfl, rfl⟩ := h
    by_cases hlen : r < g.length
    · by_cases hcl : c < (g.getD r []).length
      · right
        exact getCell_setCell_self g r c v hlen hcl
      · left
        show ((g.set r ((g.getD r []).set c v)).getD r []).getD c emptyBlock = _
        rw [getD_set_self_lt _ _ _ hlen, List.set_eq_of_length_le (by omega)]
        rfl
    · left
      show ((g.set r ((g.getD r []).set c v)).getD r []).getD c emptyBlock = _
      rw [List.set_eq_of_length_le (by omega)]
      rfl
  · left
    apply getCell_setCell_ne
    tauto

/-- Writes preserve well-formedness. -/
theorem WF_setCell {rows cols : Nat} {g : PGrid} (hwf : WF rows cols g)
    (a b : Nat) (v : Block) : WF rows cols (setCell g a b v) := by
  constructor
  · show (g.set a _).length = rows
    rw [List.length_set]
    exact hwf.1
  · intro row hrow
    by_cases ha : a < g.length
    · rcases List.mem_or_eq_of_mem_set hrow with h | h
      · exact hwf.2 _ h
      · subst h
        rw [List.length_set]
        have hmem : g.getD a [] ∈ g := by
          rw [List.getD_eq_getElem?_getD, List.getElem?_eq_getElem ha]
          simpa using List.getElem_mem ha
        exact hwf.2 _ hmem
    · rw [show setCell g a b v = g from List.set_eq_of_length_le (by omega)] at hrow
      exact hwf.2 _ hrow

/-- Counting with two predicates that disagree only at two swapped elements
of a duplicate-free list gives equal counts. -/
theorem countP_two_point {α : Type} [DecidableEq α] (l : List α) (hnd : l.Nodup)
    (f g : α → Bool) (a b : α) (hab : a ≠ b) (ha : a ∈ l) (hb : b ∈ l)
    (hfa : f a = true) (hga : g a = false) (hfb : f b = false) (hgb : g b = true)
    (hrest : ∀ x ∈ l, x ≠ a → x ≠ b → f x = g x) :
    l.countP f = l.countP g := by
  have hperm1 : List.Perm l (a :: l.erase a) := List.perm_cons_erase ha
  have hbmem : b ∈ l.erase a := (List.mem_erase_of_ne (Ne.symm hab)).mpr hb
  have hperm2 : List.Perm (l.erase a) (b :: (l.erase a).erase b) :=
    List.perm_cons_erase hbmem
  have hperm : List.Perm l (a :: b :: (l.erase a).erase b) :=
    hperm1.trans (hperm2.cons a)
  rw [hperm.countP_eq f, hperm.countP_eq g]
  simp only [List.countP_cons, hfa, hga, hfb, hgb]
  have hcongr : ((l.erase a).erase b).countP f = ((l.erase a).erase b).countP g := by
    apply List.countP_congr
    intro x hx
    have hx1 : x ∈ l.erase a := List.mem_of_mem_erase hx
    have hx2 : x ∈ l := List.mem_of_mem_erase hx1
    have hxa : x ≠ a := by
      intro he
      subst he
      exact hnd.not_mem_erase hx1
    have hxb : x ≠ b := by
      intro he
      subst he
      exact (hnd.erase a).not_mem_erase hx
    rw [hrest x hx2 hxa hxb]
  rw [hcongr]
  simp

/-- The non-empty-cell count never exceeds the cell count. -/
theorem nonEmptyCount_le (rows cols : Nat) (g : PGrid) :
    nonEmptyCount rows cols g ≤ rows * cols := by
  calc nonEmptyCount rows cols g
      ≤ ((List.range rows).product (List.range cols)).length :=
        List.countP_le_length _
    _ = rows * cols := by
        rw [show (List.range rows).product (List.range cols)
          = (List.range rows) ×ˢ (List.range cols) from rfl]
        rw [List.length_product, List.length_range, List.length_range]

/-- Clearing one cell never increases the non-empty-cell count. -/
theorem nonEmptyCount_setCell_empty_le (rows cols : Nat) (g : PGrid) (a b : Nat) :
    nonEmptyCount rows cols (setCell g a b emptyBlock) ≤ nonEmptyCount rows cols g := by
  apply List.countP_mono_left
  intro x _ hx
  rcases getCell_setCell_cases g a b x.1 x.2 emptyBlock with h | h
  · rwa [h] at hx
  · rw [h] at hx
    simp [emptyBlock] at hx

/-- Prepending an element where the first predicate fails and the second
holds turns a count inequality strict. -/
theorem countP_cons_lt {α : Type} (P Q : α → Bool) (a : α) (l : List α)
    (hP : P a = false) (hQ : Q a = true)
    (hle : l.countP P ≤ l.countP Q) :
    (a :: l).countP P < (a :: l).countP Q := by
  rw [List.countP_cons, List.countP_cons, hP, hQ]
  simp
  omega

/-- Clearing an in-range occupied cell strictly decreases the count. -/
theorem nonEmptyCount_setCell_empty_lt {rows cols : Nat} {g : PGrid}
    (hwf : WF rows cols g) {a b : Nat} (ha : a < rows) (hb : b < cols)
    (hne : (getCell g a b).type ≠ BlockType.EMPTY) :
    nonEmptyCount rows cols (setCell g a b emptyBlock) < nonEmptyCount rows cols g := by
  have hmem : (a, b) ∈ (List.range rows).product (List.range cols) :=
    List.pair_mem_product.mpr ⟨List.mem_range.mpr ha, List.mem_range.mpr hb⟩
  have hperm := List.perm_cons_erase hmem
  rw [nonEmptyCount, nonEmptyCount, hperm.countP_eq, hperm.countP_eq]
  have hPab : decide ((getCell (setCell g a b emptyBlock) a b).type ≠ BlockType.EMPTY)
      = false := by
    rw [getCell_setCell_self_wf hwf ha hb]
    simp [emptyBlock]
  have hQab : decide ((getCell g a b).type ≠ BlockType.EMPTY) = true := by
    simpa using hne
  have hmono : ∀ rest : List (Nat × Nat),
      rest.countP (fun p => decide ((getCell (setCell g a b emptyBlock) p.1 p.2).type
          ≠ BlockType.EMPTY)) ≤
        rest.countP (fun p => decide ((getCell g p.1 p.2).type ≠ BlockType.EMPTY)) := by
    intro rest
    apply List.countP_mono_left
    intro x _ hx
    rcases getCell_setCell_cases g a b x.1 x.2 emptyBlock with h | h
    · rwa [h] at hx
    · rw [h] at hx
      simp [emptyBlock] at hx
  exact countP_cons_lt _ _ _ _ hPab hQab (hmono _)

/-- Well-formedness is preserved by clearing a list of cells. -/
theorem WF_clearCells {rows cols : Nat} :
    ∀ (l : List (Nat × Nat)) {g : PGrid}, WF rows cols g →
      WF rows cols (clearCells g l) := by
  intro l
  induction l with
  | nil => intro g hwf; exact hwf
  | cons p ps ih =>
    intro g hwf
    exact ih (WF_setCell hwf p.1 p.2 emptyBlock)

/-- Clearing cells never increases the non-empty-cell count. -/
theorem nonEmptyCount_clearCells_le (rows cols : Nat) :
    ∀ (l : List (Nat × Nat)) (g : PGrid),
      nonEmptyCount rows cols (clearCells g l) ≤ nonEmptyCount rows cols g := by
  intro l
  induction l with
  | nil => intro g; exact Nat.le_refl _
  | cons p ps ih =>
    intro g
    exact (ih _).trans (nonEmptyCount_setCell_empty_le rows cols g p.1 p.2)

/-- Clearing a non-empty list headed by an in-range occupied cell strictly
decreases the non-empty-cell count. -/
theorem nonEmptyCount_clearCells_lt {rows cols : Nat} {g : PGrid}
    (hwf : WF rows cols g) {p : Nat × Nat} {ps : List (Nat × Nat)}
    (ha : p.1 < rows) (hb : p.2 < cols)
    (hne : (getCell g p.1 p.2).type ≠ BlockType.EMPTY) :
    nonEmptyCount rows cols (clearCells g (p :: ps)) < nonEmptyCount rows cols g := by
  show nonEmptyCount rows cols (clearCells (setCell g p.1 p.2 emptyBlock) ps) < _
  exact (nonEmptyCount_clearCells_le rows cols ps _).trans_lt
    (nonEmptyCount_setCell_empty_lt hwf ha hb hne)

/-- Every index the scan emits points at a non-Empty cell of the line: the
scanned prefix is `pre`, whose trailing `count` cells continue a run of the
carried symbol `cur`. -/
theorem scanRunAux_sound (l : List BlockType) :
    ∀ (pre : List BlockType) (count : Nat) (cur : BlockType),
      count ≤ pre.length →
      (∀ k, k < count → pre.getD (pre.length - 1 - k) BlockType.EMPTY = cur) →
      (2 ≤ count → cur ≠ BlockType.EMPTY) →
      ∀ j ∈ scanRunAux pre.length count cur l,
        (pre ++ l).getD j BlockType.EMPTY ≠ BlockType.EMPTY := by
  induction l with
  | nil =>
    intro pre count cur hcle hprev hinv j hj
    rw [show scanRunAux pre.length count cur [] =
        (if 3 ≤ count ∧ cur ≠ BlockType.EMPTY then flushIdx pre.length count else [])
      from rfl] at hj
    by_cases hc : 3 ≤ count ∧ cur ≠ BlockType.EMPTY
    · rw [if_pos hc] at hj
      obtain ⟨k, hk, rfl⟩ := List.mem_map.mp hj
      rw [List.mem_range] at hk
      have hidx : pre.length - (k + 1) = pre.length - 1 - k := by omega
      rw [List.append_nil, hidx, hprev k hk]
      exact hc.2
    · rw [if_neg hc] at hj
      cases hj
  | cons x xs ih =>
    intro pre count cur hcle hprev hinv j hj
    rw [show scanRunAux pre.length count cur (x :: xs) =
        (if x ≠ BlockType.EMPTY ∧ x = cur then
          scanRunAux (pre.length + 1) (count + 1) cur xs
         else (if 3 ≤ count then flushIdx pre.length count else []) ++
           scanRunAux (pre.length + 1) 1 x xs) from rfl] at hj
    have hlen1 : (pre ++ [x]).length = pre.length + 1 := by simp
    have hassoc : (pre ++ [x]) ++ xs = pre ++ (x :: xs) := by simp
    have hgetx : (pre ++ [x]).getD pre.length BlockType.EMPTY = x := by
      rw [List.getD_eq_getElem?_getD, List.getElem?_append_right (Nat.le_refl _)]
      simp
    by_cases hx : x ≠ BlockType.EMPTY ∧ x = cur
    · rw [if_pos hx] at hj
      have hprev1 : ∀ k, k < count + 1 →
          (pre ++ [x]).getD ((pre ++ [x]).length - 1 - k) BlockType.EMPTY = cur := by
        intro k hk
        rw [hlen1]
        match k with
        | 0 =>
          simpa [hgetx] using hx.2
        | m + 1 =>
          have hlt : pre.length + 1 - 1 - (m + 1) < pre.length := by omega
          rw [List.getD_eq_getElem?_getD, List.getElem?_append_left hlt,
            ← List.getD_eq_getElem?_getD]
          have hidx : pre.length + 1 - 1 - (m + 1) = pre.length - 1 - m := by omega
          rw [hidx]
          exact hprev m (by omega)
      have hres := ih (pre ++ [x]) (count + 1) cur
        (by rw [hlen1]; omega)
        hprev1
        (fun _ => hx.2 ▸ hx.1)
        j (by rw [hlen1]; exact hj)
      rwa [hassoc] at hres
    · rw [if_neg hx] at hj
      rcases List.mem_append.mp hj with hjf | hjr
      · by_cases h3 : 3 ≤ count
        · rw [if_pos h3] at hjf
          obtain ⟨k, hk, rfl⟩ := List.mem_map.mp hjf
          rw [List.mem_range] at hk
          have hlt : pre.length - (k + 1) < pre.length := by omega
          rw [List.getD_eq_getElem?_getD, List.getElem?_append_left hlt,
            ← List.getD_eq_getElem?_getD]
          have hidx : pre.length - (k + 1) = pre.length - 1 - k := by omega
          rw [hidx, hprev k hk]
          exact hinv (by omega)
        · rw [if_neg h3] at hjf
          cases hjf
      · have hprev1 : ∀ k, k < 1 →
            (pre ++ [x]).getD ((pre ++ [x]).length - 1 - k) BlockType.EMPTY = x := by
          intro k hk
          have hk0 : k = 0 := by omega
          subst hk0
          rw [hlen1]
          simpa using hgetx
        have hres := ih (pre ++ [x]) 1 x
          (by rw [hlen1]; omega)
          hprev1
          (fun h2 => absurd h2 (by omega))
          j (by rw [hlen1]; exact hjr)
        rwa [hassoc] at hres

/-- Every position in `toClear` is in range and holds a non-Empty cell. -/
theorem toClear_mem_sound (rows cols : Nat) (g : PGrid) :
    ∀ p ∈ toClearGrid rows cols g,
      p.1 < rows ∧ p.2 < cols ∧ (getCell g p.1 p.2).type ≠ BlockType.EMPTY := by
  intro p hp
  have hline : ∀ (f : Nat → BlockType) (n : Nat), ∀ j ∈ scanRun ((List.range n).map f),
      j < n ∧ f j ≠ BlockType.EMPTY := by
    intro f n j hj
    have hs := scanRunAux_sound ((List.range n).map f) [] 0 BlockType.EMPTY
      (by simp) (by intro k hk; omega) (by omega) j hj
    rw [List.nil_append] at hs
    by_cases hn : j < n
    · exact ⟨hn, by rwa [getD_map_range f n j hn] at hs⟩
    · exfalso
      apply hs
      apply List.getD_eq_default
      simp
      omega
  rw [toClearGrid, List.mem_append] at hp
  rcases hp with hp | hp
  · obtain ⟨r, hr, hp⟩ := List.mem_flatMap.mp hp
    obtain ⟨j, hj, rfl⟩ := List.mem_map.mp hp
    rw [List.mem_range] at hr
    obtain ⟨hjn, hjne⟩ := hline (fun c => (getCell g r c).type) cols j hj
    exact ⟨hr, hjn, hjne⟩
  · obtain ⟨c, hc, hp⟩ := List.mem_flatMap.mp hp
    obtain ⟨j, hj, rfl⟩ := List.mem_map.mp hp
    rw [List.mem_range] at hc
    obtain ⟨hjn, hjne⟩ := hline (fun r => (getCell g r c).type) rows j hj
    exact ⟨hjn, hc, hjne⟩

theorem allPos_nodup (rows cols : Nat) :
    ((List.range rows).product (List.range cols)).Nodup :=
  (List.nodup_range rows).product (List.nodup_range cols)

theorem prod_ne_components {u v : Nat × Nat} (h : u ≠ v) : u.1 ≠ v.1 ∨ u.2 ≠ v.2 := by
  by_contra hc
  push_neg at hc
  exact h (Prod.ext hc.1 hc.2)

theorem gravOrder_mem_bounds {rows cols : Nat} :
    ∀ q ∈ gravOrder rows cols, q.1 + 1 < rows ∧ q.2 < cols := by
  intro q hq
  rw [gravOrder] at hq
  obtain ⟨c, hc, hq⟩ := List.mem_flatMap.mp hq
  obtain ⟨r, hr, rfl⟩ := List.mem_map.mp hq
  rw [List.mem_reverse, List.mem_range] at hr
  rw [List.mem_range] at hc
  exact ⟨by omega, hc⟩

/-- One gravity step preserves well-formedness and the non-empty count. -/
theorem gravStep_inv {rows cols : Nat} {g : PGrid} {mv : Bool} {q : Nat × Nat}
    (hwf : WF rows cols g) (hr : q.1 + 1 < rows) (hc : q.2 < cols) :
    WF rows cols (gravStep (g, mv) q).1 ∧
      nonEmptyCount rows cols (gravStep (g, mv) q).1 = nonEmptyCount rows cols g := by
  rw [gravStep]
  by_cases hcond : (getCell g q.1 q.2).type ≠ BlockType.EMPTY ∧
      (getCell g q.1 q.2).isVirus = false ∧
      (getCell g (q.1 + 1) q.2).type = BlockType.EMPTY
  · rw [if_pos hcond]
    refine ⟨WF_setCell (WF_setCell hwf _ _ _) _ _ _, ?_⟩
    have hwf1 : WF rows cols (setCell g (q.1 + 1) q.2 (getCell g q.1 q.2)) :=
      WF_setCell hwf _ _ _
    have hnewB : getCell (setCell (setCell g (q.1 + 1) q.2 (getCell g q.1 q.2))
        q.1 q.2 emptyBlock) q.1 q.2 = emptyBlock :=
      getCell_setCell_self_wf hwf1 (by omega) hc emptyBlock
    have hnewA : getCell (setCell (setCell g (q.1 + 1) q.2 (getCell g q.1 q.2))
        q.1 q.2 emptyBlock) (q.1 + 1) q.2 = getCell g q.1 q.2 := by
      rw [getCell_setCell_ne _ _ _ _ _ _ (Or.inl (by omega)),
        getCell_setCell_self_wf hwf (by omega) hc]
    have hother : ∀ x : Nat × Nat, x ≠ (q.1 + 1, q.2) → x ≠ (q.1, q.2) →
        getCell (setCell (setCell g (q.1 + 1) q.2 (getCell g q.1 q.2))
          q.1 q.2 emptyBlock) x.1 x.2 = getCell g x.1 x.2 := by
      intro x hxA hxB
      rw [getCell_setCell_ne _ _ _ _ _ _ (prod_ne_components hxB),
        getCell_setCell_ne _ _ _ _ _ _ (prod_ne_components hxA)]
    apply countP_two_point _ (allPos_nodup rows cols) _ _ (q.1 + 1, q.2) (q.1, q.2)
    · intro he
      have : q.1 + 1 = q.1 := congrArg Prod.fst he
      omega
    · exact List.pair_mem_product.mpr
        ⟨List.mem_range.mpr (by omega), List.mem_range.mpr hc⟩
    · exact List.pair_mem_product.mpr
        ⟨List.mem_range.mpr (by omega), List.mem_range.mpr hc⟩
    · show decide _ = true
      rw [show ((q.1 + 1, q.2) : Nat × Nat).1 = q.1 + 1 from rfl,
        show ((q.1 + 1, q.2) : Nat × Nat).2 = q.2 from rfl, hnewA]
      simpa using hcond.1
    · show decide _ = false
      rw [show ((q.1 + 1, q.2) : Nat × Nat).1 = q.1 + 1 from rfl,
        show ((q.1 + 1, q.2) : Nat × Nat).2 = q.2 from rfl]
      simpa using hcond.2.2
    · show decide _ = false
      rw [show ((q.1, q.2) : Nat × Nat).1 = q.1 from rfl,
        show ((q.1, q.2) : Nat × Nat).2 = q.2 from rfl, hnewB]
      simp [emptyBlock]
    · show decide _ = true
      rw [show ((q.1, q.2) : Nat × Nat).1 = q.1 from rfl,
        show ((q.1, q.2) : Nat × Nat).2 = q.2 from rfl]
      simpa using hcond.1
    · intro x _ hxA hxB
      rw [hother x hxA hxB]
  · rw [if_neg hcond]
    exact ⟨hwf, rfl⟩

/-- Folding gravity steps over in-range positions preserves well-formedness
and the non-empty count. -/
theorem grav_fold_count {rows cols : Nat} :
    ∀ (l : List (Nat × Nat)) (g : PGrid) (mv : Bool),
      WF rows cols g → (∀ q ∈ l, q.1 + 1 < rows ∧ q.2 < cols) →
      WF rows cols (l.foldl gravStep (g, mv)).1 ∧
        nonEmptyCount rows cols (l.foldl gravStep (g, mv)).1
          = nonEmptyCount rows cols g := by
  intro l
  induction l with
  | nil => intro g mv hwf _; exact ⟨hwf, rfl⟩
  | cons q qs ih =>
    intro g mv hwf hb
    have hq := hb q (List.mem_cons_self q qs)
    have hstep := @gravStep_inv rows cols g mv q hwf hq.1 hq.2
    rw [List.foldl_cons]
    have heta : gravStep (g, mv) q = ((gravStep (g, mv) q).1, (gravStep (g, mv) q).2) :=
      rfl
    rw [heta]
    have hrec := ih (gravStep (g, mv) q).1 (gravStep (g, mv) q).2 hstep.1
      (fun p hp => hb p (List.mem_cons_of_mem q hp))
    exact ⟨hrec.1, hrec.2.trans hstep.2⟩

/-- A full gravity pass preserves well-formedness and the non-empty count. -/
theorem applyGravity_inv {rows cols : Nat} {g : PGrid} (hwf : WF rows cols g) :
    WF rows cols (applyGravity rows cols g).1 ∧
      nonEmptyCount rows cols (applyGravity rows cols g).1
        = nonEmptyCount rows cols g :=
  grav_fold_count (gravOrder rows cols) g false hwf gravOrder_mem_bounds

/-- Iterated gravity passes preserve well-formedness and the non-empty count. -/
theorem applyGravityN_inv {rows cols : Nat} :
    ∀ (n : Nat) (g : PGrid), WF rows cols g →
      WF rows cols (applyGravityN rows cols n g) ∧
        nonEmptyCount rows cols (applyGravityN rows cols n g)
          = nonEmptyCount rows cols g := by
  intro n
  induction n with
  | zero => intro g hwf; exact ⟨hwf, rfl⟩
  | succ n ih =>
    intro g hwf
    have hpass := @applyGravity_inv rows cols g hwf
    have hrec := ih (applyGravity rows cols g).1 hpass.1
    exact ⟨hrec.1, hrec.2.trans hpass.2⟩

/-- A fold whose moved flag is already set keeps it set. -/
theorem grav_fold_true :
    ∀ (l : List (Nat × Nat)) (g : PGrid),
      (l.foldl gravStep (g, true)).2 = true := by
  intro l
  induction l with
  | nil => intro g; rfl
  | cons q qs ih =>
    intro g
    rw [List.foldl_cons, gravStep]
    by_cases hcond : (getCell g q.1 q.2).type ≠ BlockType.EMPTY ∧
        (getCell g q.1 q.2).isVirus = false ∧
        (getCell g (q.1 + 1) q.2).type = BlockType.EMPTY
    · rw [if_pos hcond]
      exact ih _
    · rw [if_neg hcond]
      exact ih g

/-- If a gravity fold reports no move, no step condition held and the grid
is unchanged. -/
theorem grav_fold_false :
    ∀ (l : List (Nat × Nat)) (g : PGrid) (mv : Bool),
      (l.foldl gravStep (g, mv)).2 = false →
      (l.foldl gravStep (g, mv)).1 = g ∧
        ∀ q ∈ l, ¬ ((getCell g q.1 q.2).type ≠ BlockType.EMPTY ∧
          (getCell g q.1 q.2).isVirus = false ∧
          (getCell g (q.1 + 1) q.2).type = BlockType.EMPTY) := by
  intro l
  induction l with
  | nil =>
    intro g mv _
    exact ⟨rfl, by simp⟩
  | cons q qs ih =>
    intro g mv h
    rw [List.foldl_cons] at h ⊢
    by_cases hcond : (getCell g q.1 q.2).type ≠ BlockType.EMPTY ∧
        (getCell g q.1 q.2).isVirus = false ∧
        (getCell g (q.1 + 1) q.2).type = BlockType.EMPTY
    · exfalso
      rw [gravStep, if_pos hcond] at h
      rw [grav_fold_true qs _] at h
      cases h
    · rw [gravStep, if_neg hcond] at h ⊢
      have hrec := ih g mv h
      refine ⟨hrec.1, ?_⟩
      intro p hp
      rcases List.mem_cons.mp hp with rfl | hp
      · exact hcond
      · exact hrec.2 p hp

/-- Summing a value function over a duplicate-free list after changing it at
exactly two members: the cross terms balance. -/
theorem map_sum_two_point {α : Type} [DecidableEq α] (l : List α) (hnd : l.Nodup)
    (F G : α → Nat) (a b : α) (hab : a ≠ b) (ha : a ∈ l) (hb : b ∈ l)
    (hrest : ∀ x ∈ l, x ≠ a → x ≠ b → F x = G x) :
    (l.map F).sum + G a + G b = (l.map G).sum + F a + F b := by
  have hperm1 : List.Perm l (a :: l.erase a) := List.perm_cons_erase ha
  have hbmem : b ∈ l.erase a := (List.mem_erase_of_ne (Ne.symm hab)).mpr hb
  have hperm2 : List.Perm (l.erase a) (b :: (l.erase a).erase b) :=
    List.perm_cons_erase hbmem
  have hperm : List.Perm l (a :: b :: (l.erase a).erase b) :=
    hperm1.trans (hperm2.cons a)
  rw [(hperm.map F).sum_eq, (hperm.map G).sum_eq]
  simp only [List.map_cons, List.sum_cons]
  have hcongr : ((l.erase a).erase b).map F = ((l.erase a).erase b).map G := by
    apply List.map_congr_left
    intro x hx
    have hx1 : x ∈ l.erase a := List.mem_of_mem_erase hx
    have hx2 : x ∈ l := List.mem_of_mem_erase hx1
    have hxa : x ≠ a := fun he => hnd.not_mem_erase (he ▸ hx1)
    have hxb : x ≠ b := fun he => (hnd.erase a).not_mem_erase (he ▸ hx)
    exact hrest x hx2 hxa hxb
  rw [hcongr]
  omega

/-- Falling potential of a grid: each non-empty in-range cell contributes
its distance to the bottom row; every gravity move decreases it. -/
def gravPot (rows cols : Nat) (g : PGrid) : Nat :=
  (((List.range rows).product (List.range cols)).map
    (fun p => if (getCell g p.1 p.2).type ≠ BlockType.EMPTY then rows - p.1 else 0)).sum

theorem gravPot_le (rows cols : Nat) (g : PGrid) :
    gravPot rows cols g ≤ rows * (rows * cols) := by
  have hterm : ∀ x ∈ ((List.range rows).product (List.range cols)).map
      (fun p => if (getCell g p.1 p.2).type ≠ BlockType.EMPTY then rows - p.1 else 0),
      x ≤ rows := by
    intro x hx
    obtain ⟨p, _, rfl⟩ := List.mem_map.mp hx
    split <;> omega
  have hsum := List.sum_le_card_nsmul _ rows hterm
  rw [List.length_map] at hsum
  have hlen : ((List.range rows).product (List.range cols)).length = rows * cols := by
    rw [show (List.range rows).product (List.range cols)
      = (List.range rows) ×ˢ (List.range cols) from rfl]
    rw [List.length_product, List.length_range, List.length_range]
  rw [hlen] at hsum
  calc gravPot rows cols g ≤ (rows * cols) * rows := hsum
    _ = rows * (rows * cols) := by ring

/-- One gravity step never increases the potential, and decreases it
strictly whenever it sets the moved flag from a clear flag. -/
theorem gravStep_pot {rows cols : Nat} {g : PGrid} {mv : Bool} {q : Nat × Nat}
    (hwf : WF rows cols g) (hr : q.1 + 1 < rows) (hc : q.2 < cols) :
    gravPot rows cols (gravStep (g, mv) q).1 ≤ gravPot rows cols g ∧
      ((gravStep (g, mv) q).2 = true → mv = true ∨
        gravPot rows cols (gravStep (g, mv) q).1 < gravPot rows cols g) := by
  rw [gravStep]
  dsimp only
  by_cases hcond : (getCell g q.1 q.2).type ≠ BlockType.EMPTY ∧
      (getCell g q.1 q.2).isVirus = false ∧
      (getCell g (q.1 + 1) q.2).type = BlockType.EMPTY
  · rw [if_pos hcond]
    have hwf1 : WF rows cols (setCell g (q.1 + 1) q.2 (getCell g q.1 q.2)) :=
      WF_setCell hwf _ _ _
    have hnewB : getCell (setCell (setCell g (q.1 + 1) q.2 (getCell g q.1 q.2))
        q.1 q.2 emptyBlock) q.1 q.2 = emptyBlock :=
      getCell_setCell_self_wf hwf1 (by omega) hc emptyBlock
    have hnewA : getCell (setCell (setCell g (q.1 + 1) q.2 (getCell g q.1 q.2))
        q.1 q.2 emptyBlock) (q.1 + 1) q.2 = getCell g q.1 q.2 := by
      rw [getCell_setCell_ne _ _ _ _ _ _ (Or.inl (by omega)),
        getCell_setCell_self_wf hwf (by omega) hc]
    have hkey := map_sum_two_point ((List.range rows).product (List.range cols))
      (allPos_nodup rows cols)
      (fun p => if (getCell (setCell (setCell g (q.1 + 1) q.2 (getCell g q.1 q.2))
        q.1 q.2 emptyBlock) p.1 p.2).type ≠ BlockType.EMPTY then rows - p.1 else 0)
      (fun p => if (getCell g p.1 p.2).type ≠ BlockType.EMPTY then rows - p.1 else 0)
      (q.1 + 1, q.2) (q.1, q.2)
      (fun he => by
        have : q.1 + 1 = q.1 := congrArg Prod.fst he
        omega)
      (List.pair_mem_product.mpr
        ⟨List.mem_range.mpr (by omega), List.mem_range.mpr hc⟩)
      (List.pair_mem_product.mpr
        ⟨List.mem_range.mpr (by omega), List.mem_range.mpr hc⟩)
      (by
        intro x _ hxA hxB
        have heq : getCell (setCell (setCell g (q.1 + 1) q.2 (getCell g q.1 q.2))
            q.1 q.2 emptyBlock) x.1 x.2 = getCell g x.1 x.2 := by
          rw [getCell_setCell_ne _ _ _ _ _ _ (prod_ne_components hxB),
            getCell_setCell_ne _ _ _ _ _ _ (prod_ne_components hxA)]
        simp only [heq])
    have hvA : (fun p : Nat × Nat =>
        if (getCell (setCell (setCell g (q.1 + 1) q.2 (getCell g q.1 q.2))
          q.1 q.2 emptyBlock) p.1 p.2).type ≠ BlockType.EMPTY then rows - p.1 else 0)
        ((q.1 + 1, q.2) : Nat × Nat) = rows - (q.1 + 1) := by
      show (if (getCell (setCell (setCell g (q.1 + 1) q.2 (getCell g q.1 q.2))
        q.1 q.2 emptyBlock) (q.1 + 1) q.2).type ≠ BlockType.EMPTY
        then rows - (q.1 + 1) else 0) = rows - (q.1 + 1)
      rw [hnewA, if_pos hcond.1]
    have hvAold : (fun p : Nat × Nat =>
        if (getCell g p.1 p.2).type ≠ BlockType.EMPTY then rows - p.1 else 0)
        ((q.1 + 1, q.2) : Nat × Nat) = 0 := by
      show (if (getCell g (q.1 + 1) q.2).type ≠ BlockType.EMPTY
        then rows - (q.1 + 1) else 0) = 0
      rw [if_neg (by simp [hcond.2.2])]
    have hvB : (fun p : Nat × Nat =>
        if (getCell (setCell (setCell g (q.1 + 1) q.2 (getCell g q.1 q.2))
          q.1 q.2 emptyBlock) p.1 p.2).type ≠ BlockType.EMPTY then rows - p.1 else 0)
        ((q.1, q.2) : Nat × Nat) = 0 := by
      show (if (getCell (setCell (setCell g (q.1 + 1) q.2 (getCell g q.1 q.2))
        q.1 q.2 emptyBlock) q.1 q.2).type ≠ BlockType.EMPTY
        then rows - q.1 else 0) = 0
      rw [hnewB, if_neg (by simp [emptyBlock])]
    have hvBold : (fun p : Nat × Nat =>
        if (getCell g p.1 p.2).type ≠ BlockType.EMPTY then rows - p.1 else 0)
        ((q.1, q.2) : Nat × Nat) = rows - q.1 := by
      show (if (getCell g q.1 q.2).type ≠ BlockType.EMPTY
        then rows - q.1 else 0) = rows - q.1
      rw [if_pos hcond.1]
    rw [hvA, hvAold, hvB, hvBold] at hkey
    constructor
    · show gravPot rows cols (setCell (setCell g (q.1 + 1) q.2 (getCell g q.1 q.2))
        q.1 q.2 emptyBlock) ≤ gravPot rows cols g
      rw [gravPot, gravPot]
      omega
    · intro _
      right
      show gravPot rows cols (setCell (setCell g (q.1 + 1) q.2 (getCell g q.1 q.2))
        q.1 q.2 emptyBlock) < gravPot rows cols g
      rw [gravPot, gravPot]
      omega
  · rw [if_neg hcond]
    exact ⟨Nat.le_refl _, fun h => Or.inl h⟩

/-- Folding gravity steps never increases the potential, and a fold that
raises the moved flag strictly decreases it. -/
theorem grav_fold_pot {rows cols : Nat} :
    ∀ (l : List (Nat × Nat)) (g : PGrid) (mv : Bool),
      WF rows cols g → (∀ q ∈ l, q.1 + 1 < rows ∧ q.2 < cols) →
      gravPot rows cols (l.foldl gravStep (g, mv)).1 ≤ gravPot rows cols g ∧
        ((l.foldl gravStep (g, mv)).2 = true → mv = true ∨
          gravPot rows cols (l.foldl gravStep (g, mv)).1 < gravPot rows cols g) := by
  intro l
  induction l with
  | nil => intro g mv _ _; exact ⟨Nat.le_refl _, fun h => Or.inl h⟩
  | cons q qs ih =>
    intro g mv hwf hb
    have hq := hb q (List.mem_cons_self q qs)
    have hstep := @gravStep_pot rows cols g mv q hwf hq.1 hq.2
    have hstepwf := (@gravStep_inv rows cols g mv q hwf hq.1 hq.2).1
    rw [List.foldl_cons]
    have heta : gravStep (g, mv) q = ((gravStep (g, mv) q).1, (gravStep (g, mv) q).2) :=
      rfl
    rw [heta]
    have hrec := ih (gravStep (g, mv) q).1 (gravStep (g, mv) q).2 hstepwf
      (fun p hp => hb p (List.mem_cons_of_mem q hp))
    refine ⟨hrec.1.trans hstep.1, ?_⟩
    intro hm
    rcases hrec.2 hm with hflag | hlt
    · rcases hstep.2 hflag with hmv | hlt2
      · exact Or.inl hmv
      · exact Or.inr (Nat.lt_of_le_of_lt hrec.1 hlt2)
    · exact Or.inr (Nat.lt_of_lt_of_le hlt hstep.1)

/-- A gravity pass that moved something strictly decreases the potential. -/
theorem applyGravity_pot {rows cols : Nat} {g : PGrid} (hwf : WF rows cols g)
    (hm : (applyGravity rows cols g).2 = true) :
    gravPot rows cols (applyGravity rows cols g).1 < gravPot rows cols g := by
  have h := grav_fold_pot (gravOrder rows cols) g false hwf gravOrder_mem_bounds
  rcases h.2 hm with hmv | hlt
  · cases hmv
  · exact hlt

/-- On a grid the pass leaves alone, every further pass is the identity. -/
theorem applyGravityN_of_settled {rows cols : Nat} {g : PGrid}
    (h : (applyGravity rows cols g).2 = false) :
    ∀ n, applyGravityN rows cols n g = g := by
  have hfix : (applyGravity rows cols g).1 = g :=
    (grav_fold_false (gravOrder rows cols) g false h).1
  intro n
  induction n with
  | zero => rfl
  | succ n ih =>
    show applyGravityN rows cols n (applyGravity rows cols g).1 = g
    rw [hfix]
    exact ih

/-- Gravity settles within as many passes as the falling potential. -/
theorem applyGravity_settles {rows cols : Nat} :
    ∀ (k : Nat) (g : PGrid), WF rows cols g → gravPot rows cols g ≤ k →
      (applyGravity rows cols (applyGravityN rows cols k g)).2 = false := by
  intro k
  induction k with
  | zero =>
    intro g hwf hpot
    cases hp : (applyGravity rows cols g).2
    · exact hp
    · have := applyGravity_pot hwf hp
      omega
  | succ k ih =>
    intro g hwf hpot
    cases hp : (applyGravity rows cols g).2
    · rw [applyGravityN_of_settled hp]
      exact hp
    · have hlt := applyGravity_pot hwf hp
      have hwf1 := (@applyGravity_inv rows cols g hwf).1
      show (applyGravity rows cols
        (applyGravityN rows cols k (applyGravity rows cols g).1)).2 = false
      exact ih _ hwf1 (by omega)

/-- The gravity fuel used inside a cascade round really settles the grid:
after `rows * (rows * cols)` passes a further pass moves nothing. -/
theorem resolveStep_gravity_settled {rows cols : Nat} {g : PGrid}
    (hwf : WF rows cols g) :
    (applyGravity rows cols (applyGravityN rows cols (rows * (rows * cols)) g)).2
      = false :=
  applyGravity_settles _ g hwf (gravPot_le rows cols g)

/-- A stable grid is a fixed point of the cascade round. -/
theorem resolveStep_stable {rows cols : Nat} {g : PGrid}
    (h : toClearGrid rows cols g = []) : resolveStep rows cols g = g := by
  rw [resolveStep, if_pos h]

/-- On an unstable grid a cascade round preserves well-formedness and
strictly decreases the non-empty count. -/
theorem resolveStep_inv {rows cols : Nat} {g : PGrid} (hwf : WF rows cols g)
    (hne : toClearGrid rows cols g ≠ []) :
    WF rows cols (resolveStep rows cols g) ∧
      nonEmptyCount rows cols (resolveStep rows cols g)
        < nonEmptyCount rows cols g := by
  rw [resolveStep, if_neg hne]
  obtain ⟨p, ps, hp⟩ := List.exists_cons_of_ne_nil hne
  have hhead : uniqueClear rows cols g = p :: dedupFirst [p] ps := by
    rw [uniqueClear, hp]
    rfl
  have hsound := toClear_mem_sound rows cols g p (by rw [hp]; exact List.mem_cons_self p ps)
  have hclear : nonEmptyCount rows cols (clearCells g (uniqueClear rows cols g))
      < nonEmptyCount rows cols g := by
    rw [hhead]
    exact nonEmptyCount_clearCells_lt hwf hsound.1 hsound.2.1 hsound.2.2
  have hwfc : WF rows cols (clearCells g (uniqueClear rows cols g)) :=
    WF_clearCells _ hwf
  have hgrav := @applyGravityN_inv rows cols
    (rows * (rows * cols)) _ hwfc
  exact ⟨hgrav.1, by omega⟩

/-- Once stable, the cascade stays put. -/
theorem resolveN_stable_of_stable {rows cols : Nat} {g : PGrid}
    (h : toClearGrid rows cols g = []) :
    ∀ n, resolveN rows cols n g = g := by
  intro n
  induction n with
  | zero => rfl
  | succ n ih =>
    show resolveN rows cols n (resolveStep rows cols g) = g
    rw [resolveStep_stable h]
    exact ih

/-- The cascade reaches a match-free grid within as many rounds as there are
non-empty cells. -/
theorem resolveN_reaches_stable {rows cols : Nat} :
    ∀ (k : Nat) (g : PGrid), WF rows cols g → nonEmptyCount rows cols g ≤ k →
      toClearGrid rows cols (resolveN rows cols k g) = [] := by
  intro k
  induction k with
  | zero =>
    intro g _ hcnt
    show toClearGrid rows cols g = []
    by_contra hne
    obtain ⟨p, ps, hp⟩ := List.exists_cons_of_ne_nil hne
    have hsound := toClear_mem_sound rows cols g p
      (by rw [hp]; exact List.mem_cons_self p ps)
    have hpos : 0 < nonEmptyCount rows cols g := by
      apply List.countP_pos_iff.mpr
      refine ⟨(p.1, p.2), ?_, ?_⟩
      · exact List.pair_mem_product.mpr
          ⟨List.mem_range.mpr hsound.1, List.mem_range.mpr hsound.2.1⟩
      · simpa using hsound.2.2
    omega
  | succ k ih =>
    intro g hwf hcnt
    by_cases hst : toClearGrid rows cols g = []
    · show toClearGrid rows cols (resolveN rows cols k (resolveStep rows cols g)) = []
      rw [resolveStep_stable hst, resolveN_stable_of_stable hst k]
      exact hst
    · have hinv := resolveStep_inv hwf hst
      exact ih _ hinv.1 (by omega)

/-- C2 (amended, gravity-based variants): starting from any well-formed
grid, the clear-and-gravity cascade of the pills board reaches a fixed point
(no remaining matches) within `rows * cols` rounds — one round per cell. -/
theorem resolve_terminates (rows cols : Nat) (g : PGrid) (hwf : WF rows cols g) :
    toClearGrid rows cols (resolveN rows cols (rows * cols) g) = [] :=
  resolveN_reaches_stable (rows * cols) g hwf (nonEmptyCount_le rows cols g)

/-- A concrete 3-by-3 grid with one vertical run of three REDs. -/
def cascadeGrid : PGrid :=
  [[⟨BlockType.RED, false⟩, emptyBlock, emptyBlock],
   [⟨BlockType.RED, false⟩, ⟨BlockType.BLUE, false⟩, emptyBlock],
   [⟨BlockType.RED, false⟩, ⟨BlockType.YELLOW, false⟩, ⟨BlockType.GREEN, false⟩]]

/-- Witness for C2's amended theorem on a concrete grid. -/
theorem resolve_terminates_witness :
    toClearGrid 3 3 (resolveN 3 3 (3 * 3) cascadeGrid) = [] :=
  resolve_terminates 3 3 cascadeGrid ⟨by decide, by decide⟩

/-- C5: when a full gravity pass moves no cell, every non-virus occupied
cell with an in-range cell below sits on a non-Empty cell — nothing floats
at the gravity fixed point. -/
theorem applyGravity_settled (rows cols : Nat) (g : PGrid)
    (h : (applyGravity rows cols g).2 = false)
    (r c : Nat) (hr : r + 1 < rows) (hc : c < cols)
    (hocc : (getCell g r c).type ≠ BlockType.EMPTY)
    (hnv : (getCell g r c).isVirus = false) :
    (getCell g (r + 1) c).type ≠ BlockType.EMPTY := by
  have hfold := grav_fold_false (gravOrder rows cols) g false h
  have hmem : (r, c) ∈ gravOrder rows cols := by
    rw [gravOrder]
    apply List.mem_flatMap.mpr
    refine ⟨c, List.mem_range.mpr hc, ?_⟩
    apply List.mem_map.mpr
    refine ⟨r, ?_, rfl⟩
    rw [List.mem_reverse, List.mem_range]
    omega
  intro habs
  exact hfold.2 (r, c) hmem ⟨hocc, hnv, habs⟩

/-- A concrete settled 2-by-1 grid used to witness `applyGravity_settled`. -/
def settledGrid : PGrid :=
  [[⟨BlockType.RED, false⟩], [⟨BlockType.BLUE, false⟩]]

/-- Witness for C5: on a concrete settled grid the pass moves nothing and
the cell below the occupied cell is non-Empty. -/
theorem applyGravity_settled_witness :
    (applyGravity 2 1 settledGrid).2 = false ∧
      (getCell settledGrid 1 0).type ≠ BlockType.EMPTY :=
  ⟨by decide, applyGravity_settled 2 1 settledGrid (by decide) 0 0 (by decide)
    (by decide) (by decide) (by decide)⟩

/-- Every virus cell is occupied (how the game always creates viruses). -/
def VirusWF (g : PGrid) : Prop :=
  ∀ r c, (getCell g r c).isVirus = true → (getCell g r c).type ≠ BlockType.EMPTY

/-- A bounded check suffices for `VirusWF` on a well-formed grid. -/
theorem VirusWF_of_forall {rows cols : Nat} {g : PGrid} (hwf : WF rows cols g)
    (h : ∀ r, r < rows → ∀ c, c < cols →
      ((getCell g r c).isVirus = true → (getCell g r c).type ≠ BlockType.EMPTY)) :
    VirusWF g := by
  intro r c hv
  by_cases hr : r < rows
  · by_cases hc : c < cols
    · exact h r hr c hc hv
    · exfalso
      have hcell : getCell g r c = emptyBlock := by
        show (g.getD r []).getD c emptyBlock = emptyBlock
        apply List.getD_eq_default
        rw [WF_row_length hwf hr]
        omega
      rw [hcell] at hv
      simp [emptyBlock] at hv
  · exfalso
    have hcell : getCell g r c = emptyBlock := by
      show (g.getD r []).getD c emptyBlock = emptyBlock
      have houter : g.getD r [] = [] :=
        List.getD_eq_default g [] (by rw [hwf.1]; omega)
      rw [houter]
      rfl
    rw [hcell] at hv
    simp [emptyBlock] at hv

/-- One gravity fold never touches a virus cell and keeps `VirusWF`. -/
theorem grav_fold_frame :
    ∀ (l : List (Nat × Nat)) (g : PGrid) (mv : Bool), VirusWF g →
      VirusWF (l.foldl gravStep (g, mv)).1 ∧
        ∀ r c, (getCell g r c).isVirus = true →
          getCell (l.foldl gravStep (g, mv)).1 r c = getCell g r c := by
  intro l
  induction l with
  | nil =>
    intro g mv hv
    exact ⟨hv, fun _ _ _ => rfl⟩
  | cons q qs ih =>
    intro g mv hv
    rw [List.foldl_cons, gravStep]
    by_cases hcond : (getCell g q.1 q.2).type ≠ BlockType.EMPTY ∧
        (getCell g q.1 q.2).isVirus = false ∧
        (getCell g (q.1 + 1) q.2).type = BlockType.EMPTY
    · rw [if_pos hcond]
      have hframe1 : ∀ r c, (getCell g r c).isVirus = true →
          getCell (setCell (setCell g (q.1 + 1) q.2 (getCell g q.1 q.2))
            q.1 q.2 emptyBlock) r c = getCell g r c := by
        intro r c hvc
        have hneB : (r, c) ≠ ((q.1 : Nat), (q.2 : Nat)) := by
          intro he
          have h1 : r = q.1 := congrArg Prod.fst he
          have h2 : c = q.2 := congrArg Prod.snd he
          rw [h1, h2] at hvc
          rw [hvc] at hcond
          exact absurd hcond.2.1 (by simp)
        have hneA : (r, c) ≠ ((q.1 + 1 : Nat), (q.2 : Nat)) := by
          intro he
          have h1 : r = q.1 + 1 := congrArg Prod.fst he
          have h2 : c = q.2 := congrArg Prod.snd he
          rw [h1, h2] at hvc
          exact (hv _ _ hvc) hcond.2.2
        rw [getCell_setCell_ne _ _ _ _ _ _ (prod_ne_components hneB),
          getCell_setCell_ne _ _ _ _ _ _ (prod_ne_components hneA)]
      have hv1 : VirusWF (setCell (setCell g (q.1 + 1) q.2 (getCell g q.1 q.2))
          q.1 q.2 emptyBlock) := by
        intro r c hvc
        by_cases hB : (r, c) = ((q.1 : Nat), (q.2 : Nat))
        · exfalso
          have h1 : r = q.1 := congrArg Prod.fst hB
          have h2 : c = q.2 := congrArg Prod.snd hB
          rw [h1, h2] at hvc
          rcases getCell_setCell_cases (setCell g (q.1 + 1) q.2 (getCell g q.1 q.2))
              q.1 q.2 q.1 q.2 emptyBlock with hcc | hcc
          · rw [hcc] at hvc
            rw [getCell_setCell_ne _ _ _ _ _ _ (Or.inl (by omega))] at hvc
            have hft : (false : Bool) = true := by
              rw [← hcond.2.1]
              exact hvc
            exact absurd hft (by simp)
          · rw [hcc] at hvc
            simp [emptyBlock] at hvc
        · by_cases hA : (r, c) = ((q.1 + 1 : Nat), (q.2 : Nat))
          · exfalso
            have h1 : r = q.1 + 1 := congrArg Prod.fst hA
            have h2 : c = q.2 := congrArg Prod.snd hA
            rw [h1, h2] at hvc
            rw [getCell_setCell_ne _ _ _ _ _ _ (Or.inl (by omega))] at hvc
            rcases getCell_setCell_cases g (q.1 + 1) q.2 (q.1 + 1) q.2
                (getCell g q.1 q.2) with hcc | hcc
            · rw [hcc] at hvc
              exact (hv _ _ hvc) hcond.2.2
            · rw [hcc] at hvc
              have hft : (false : Bool) = true := by
                rw [← hcond.2.1]
                exact hvc
              exact absurd hft (by simp)
          · have heq : getCell (setCell (setCell g (q.1 + 1) q.2 (getCell g q.1 q.2))
                q.1 q.2 emptyBlock) r c = getCell g r c := by
              rw [getCell_setCell_ne _ _ _ _ _ _ (prod_ne_components hB),
                getCell_setCell_ne _ _ _ _ _ _ (prod_ne_components hA)]
            rw [heq] at hvc ⊢
            exact hv r c hvc
      have hrec := ih _ true hv1
      refine ⟨hrec.1, ?_⟩
      intro r c hvc
      rw [hrec.2 r c (by rw [hframe1 r c hvc]; exact hvc), hframe1 r c hvc]
    · rw [if_neg hcond]
      exact ih g mv hv

/-- C6: gravity never moves, overwrites or clears a blocking virus cell —
after any number of gravity passes every virus cell is exactly as before,
provided (as the game guarantees by construction) every virus cell is
occupied. -/
theorem applyGravity_virus_frame (rows cols : Nat) :
    ∀ (n : Nat) (g : PGrid), VirusWF g →
      ∀ r c, (getCell g r c).isVirus = true →
        getCell (applyGravityN rows cols n g) r c = getCell g r c := by
  intro n
  induction n with
  | zero =>
    intro g _ r c _
    rfl
  | succ n ih =>
    intro g hv r c hvc
    have hpass := grav_fold_frame (gravOrder rows cols) g false hv
    have hpassWF : VirusWF (applyGravity rows cols g).1 := hpass.1
    have hpassF : ∀ r c, (getCell g r c).isVirus = true →
        getCell (applyGravity rows cols g).1 r c = getCell g r c := hpass.2
    show getCell (applyGravityN rows cols n (applyGravity rows cols g).1) r c = _
    have hvc1 : (getCell (applyGravity rows cols g).1 r c).isVirus = true := by
      rw [hpassF r c hvc]
      exact hvc
    rw [ih _ hpassWF r c hvc1]
    exact hpassF r c hvc

/-- A concrete 2-by-1 grid with a floating virus above an empty cell. -/
def virusGrid : PGrid :=
  [[⟨BlockType.RED, true⟩], [emptyBlock]]

/-- Witness for C6: the floating virus is still in place after three
gravity passes. -/
theorem applyGravity_virus_frame_witness :
    getCell (applyGravityN 2 1 3 virusGrid) 0 0 = ⟨BlockType.RED, true⟩ := by
  have hv : VirusWF virusGrid :=
    @VirusWF_of_forall 2 1 virusGrid ⟨by decide, by decide⟩ (by decide)
  rw [applyGravity_virus_frame 2 1 3 virusGrid hv 0 0 (by decide)]
  rfl

end Pills

namespace Swap

/-- Symbol palette of the swap board: ordinary emoji pieces plus the two
special symbols.  The board has no Empty sentinel at all. -/
inductive MSym
  | s0
  | s1
  | s2
  | s3
  | s4
  | bomb
  | rainbow
deriving DecidableEq, Repr

/-- One board piece: its symbol and the special flag. -/
structure GamePiece where
  type : MSym
  isSpecial : Bool
deriving DecidableEq, Repr

/-- The 8-by-8 swap board. -/
abbrev SBoard := List (List GamePiece)

/-- Default piece returned by out-of-range reads (never hit in range). -/
def defaultPiece : GamePiece := ⟨MSym.s0, false⟩

/-- Board side length. -/
def BOARD_SIZE : Nat := 8

/-- Read the piece at row `r`, column `c`. -/
def getP (b : SBoard) (r c : Nat) : GamePiece := (b.getD r []).getD c defaultPiece

/-- Write the piece at row `r`, column `c`. -/
def setP (b : SBoard) (r c : Nat) (p : GamePiece) : SBoard :=
  b.set r ((b.getD r []).set c p)

/-- `initializeBoard` from the source: an 8-by-8 board fully populated with
sequential random draws, modelled by the draw stream. -/
def initializeBoard (stream : Nat → MSym) : SBoard :=
  (List.range BOARD_SIZE).map fun i =>
    (List.range BOARD_SIZE).map fun j => ⟨stream (i * BOARD_SIZE + j), false⟩

/-- `createSpecialPiece` from the source, with its exact branch order: a
length of 4 or more gives the bomb first, so the rainbow branch behind
`length >= 5` can never be reached; shorter runs draw a fresh random piece
(consuming one draw from the stream). -/
def createSpecialPiece (stream : Nat → MSym) (idx : Nat) (length : Nat) :
    GamePiece × Nat :=
  if 4 ≤ length then (⟨MSym.bomb, true⟩, idx)
  else if 5 ≤ length then (⟨MSym.rainbow, true⟩, idx)
  else (⟨stream idx, false⟩, idx + 1)

/-- The while-loop of `checkMatches` extending a run: number of consecutive
cells equal to `t` from position `j` on, stopping at the board edge. -/
def runLen (get : Nat → MSym) (t : MSym) : Nat → Nat → Nat
  | 0, _ => 0
  | fuel + 1, j =>
    if j < BOARD_SIZE ∧ get j = t then runLen get t fuel (j + 1) + 1 else 0

/-- Refill `n` cells of row `row` from column `col` rightward with fresh
draws, as the source's refill loop does. -/
def refillSegH (stream : Nat → MSym) : Nat → SBoard → Nat → Nat → Nat → SBoard × Nat
  | 0, b, _, _, idx => (b, idx)
  | n + 1, b, row, col, idx =>
    refillSegH stream n (setP b row col ⟨stream idx, false⟩) row (col + 1) (idx + 1)

/-- Refill `n` cells of column `col` from row `row` downward with fresh draws. -/
def refillSegV (stream : Nat → MSym) : Nat → SBoard → Nat → Nat → Nat → SBoard × Nat
  | 0, b, _, _, idx => (b, idx)
  | n + 1, b, row, col, idx =>
    refillSegV stream n (setP b row col ⟨stream idx, false⟩) (row + 1) col (idx + 1)

/-- Pass state of `checkMatches`: the board, the score delta accumulated so
far, the next draw index, and whether any match was found. -/
structure SwapSt where
  board : SBoard
  score : Nat
  idx : Nat
  found : Bool
deriving DecidableEq, Repr

/-- The `matchCount` computed by the horizontal scan at `(row, col)`. -/
def hMC (b : SBoard) (row col : Nat) : Nat :=
  1 + runLen (fun j => (getP b row j).type) ((getP b row col).type) BOARD_SIZE (col + 1)

/-- The `matchCount` computed by the vertical scan at `(row, col)`. -/
def vMC (b : SBoard) (col row : Nat) : Nat :=
  1 + runLen (fun j => (getP b j col).type) ((getP b row col).type) BOARD_SIZE (row + 1)

/-- Resolve one horizontal run: award `mc * 20`, put the
`createSpecialPiece` result at the head, refill the rest with fresh draws. -/
def hStep (stream : Nat → MSym) (st : SwapSt) (row col mc : Nat) : SwapSt :=
  let sp := createSpecialPiece stream st.idx mc
  let rf := refillSegH stream (mc - 1) (setP st.board row col sp.1) row (col + 1) sp.2
  ⟨rf.1, st.score + mc * 20, rf.2, true⟩

/-- Resolve one vertical run. -/
def vStep (stream : Nat → MSym) (st : SwapSt) (row col mc : Nat) : SwapSt :=
  let sp := createSpecialPiece stream st.idx mc
  let rf := refillSegV stream (mc - 1) (setP st.board row col sp.1) (row + 1) col sp.2
  ⟨rf.1, st.score + mc * 20, rf.2, true⟩

/-- The horizontal inner column loop of `checkMatches` for one row: find a
run, award `matchCount * 20`, replace its head via `createSpecialPiece`,
refill the rest with fresh draws, and skip past the run. -/
def hInner (stream : Nat → MSym) : Nat → SwapSt → Nat → Nat → SwapSt
  | 0, st, _, _ => st
  | fuel + 1, st, row, col =>
    if col < BOARD_SIZE - 2 then
      if 3 ≤ hMC st.board row col then
        hInner stream fuel (hStep stream st row col (hMC st.board row col)) row
          (col + hMC st.board row col)
      else hInner stream fuel st row (col + 1)
    else st

/-- The vertical inner row loop of `checkMatches` for one column. -/
def vInner (stream : Nat → MSym) : Nat → SwapSt → Nat → Nat → SwapSt
  | 0, st, _, _ => st
  | fuel + 1, st, col, row =>
    if row < BOARD_SIZE - 2 then
      if 3 ≤ vMC st.board col row then
        vInner stream fuel (vStep stream st row col (vMC st.board col row)) col
          (row + vMC st.board col row)
      else vInner stream fuel st col (row + 1)
    else st

/-- One `checkMatches` pass from the source: the horizontal scan over all
rows followed by the vertical scan over all columns, on a mutating board. -/
def checkMatches (stream : Nat → MSym) (b : SBoard) (idx : Nat) : SwapSt :=
  let st1 := (List.range BOARD_SIZE).foldl
    (fun st row => hInner stream BOARD_SIZE st row 0) ⟨b, 0, idx, false⟩
  (List.range BOARD_SIZE).foldl
    (fun st col => vInner stream BOARD_SIZE st col 0) st1

/-- The board is fully populated: 8 rows of 8 pieces each (and the piece
type has no Empty member at all). -/
def Dims8 (b : SBoard) : Prop :=
  b.length = BOARD_SIZE ∧ ∀ row ∈ b, row.length = BOARD_SIZE

/-- The checker value the background of the test boards holds at `(i, j)`. -/
def chkAt (i j : Nat) : MSym := if (i + j) % 2 = 0 then MSym.s1 else MSym.s2

/-- A board with a single horizontal run of three `s0` at row 0, columns
0 to 2, over a match-free checker background. -/
def cexBoard : SBoard :=
  (List.range 8).map fun i => (List.range 8).map fun j =>
    if i = 0 ∧ j < 3 then ⟨MSym.s0, false⟩ else ⟨chkAt i j, false⟩

/-- The adversarial draw stream: every refill draws `s0`, re-creating the
run that was just resolved. -/
def constS0 : Nat → MSym := fun _ => MSym.s0

set_option maxRecDepth 20000 in
theorem hInner_cex_row0 (sc idx : Nat) (f : Bool) :
    hInner constS0 BOARD_SIZE ⟨cexBoard, sc, idx, f⟩ 0 0
      = ⟨cexBoard, sc + 60, idx + 3, true⟩ := rfl

set_option maxRecDepth 20000 in
theorem hInner_cex_row1 (sc idx : Nat) (f : Bool) :
    hInner constS0 BOARD_SIZE ⟨cexBoard, sc, idx, f⟩ 1 0 = ⟨cexBoard, sc, idx, f⟩ := rfl

set_option maxRecDepth 20000 in
theorem hInner_cex_row2 (sc idx : Nat) (f : Bool) :
    hInner constS0 BOARD_SIZE ⟨cexBoard, sc, idx, f⟩ 2 0 = ⟨cexBoard, sc, idx, f⟩ := rfl

set_option maxRecDepth 20000 in
theorem hInner_cex_row3 (sc idx : Nat) (f : Bool) :
    hInner constS0 BOARD_SIZE ⟨cexBoard, sc, idx, f⟩ 3 0 = ⟨cexBoard, sc, idx, f⟩ := rfl

set_option maxRecDepth 20000 in
theorem hInner_cex_row4 (sc idx : Nat) (f : Bool) :
    hInner constS0 BOARD_SIZE ⟨cexBoard, sc, idx, f⟩ 4 0 = ⟨cexBoard, sc, idx, f⟩ := rfl

set_option maxRecDepth 20000 in
theorem hInner_cex_row5 (sc idx : Nat) (f : Bool) :
    hInner constS0 BOARD_SIZE ⟨cexBoard, sc, idx, f⟩ 5 0 = ⟨cexBoard, sc, idx, f⟩ := rfl

set_option maxRecDepth 20000 in
theorem hInner_cex_row6 (sc idx : Nat) (f : Bool) :
    hInner constS0 BOARD_SIZE ⟨cexBoard, sc, idx, f⟩ 6 0 = ⟨cexBoard, sc, idx, f⟩ := rfl

set_option maxRecDepth 20000 in
theorem hInner_cex_row7 (sc idx : Nat) (f : Bool) :
    hInner constS0 BOARD_SIZE ⟨cexBoard, sc, idx, f⟩ 7 0 = ⟨cexBoard, sc, idx, f⟩ := rfl

set_option maxRecDepth 20000 in
theorem vInner_cex_col0 (sc idx : Nat) (f : Bool) :
    vInner constS0 BOARD_SIZE ⟨cexBoard, sc, idx, f⟩ 0 0 = ⟨cexBoard, sc, idx, f⟩ := rfl

set_option maxRecDepth 20000 in
theorem vInner_cex_col1 (sc idx : Nat) (f : Bool) :
    vInner constS0 BOARD_SIZE ⟨cexBoard, sc, idx, f⟩ 1 0 = ⟨cexBoard, sc, idx, f⟩ := rfl

set_option maxRecDepth 20000 in
theorem vInner_cex_col2 (sc idx : Nat) (f : Bool) :
    vInner constS0 BOARD_SIZE ⟨cexBoard, sc, idx, f⟩ 2 0 = ⟨cexBoard, sc, idx, f⟩ := rfl

set_option maxRecDepth 20000 in
theorem vInner_cex_col3 (sc idx : Nat) (f : Bool) :
    vInner constS0 BOARD_SIZE ⟨cexBoard, sc, idx, f⟩ 3 0 = ⟨cexBoard, sc, idx, f⟩ := rfl

set_option maxRecDepth 20000 in
theorem vInner_cex_col4 (sc idx : Nat) (f : Bool) :
    vInner constS0 BOARD_SIZE ⟨cexBoard, sc, idx, f⟩ 4 0 = ⟨cexBoard, sc, idx, f⟩ := rfl

set_option maxRecDepth 20000 in
theorem vInner_cex_col5 (sc idx : Nat) (f : Bool) :
    vInner constS0 BOARD_SIZE ⟨cexBoard, sc, idx, f⟩ 5 0 = ⟨cexBoard, sc, idx, f⟩ := rfl

set_option maxRecDepth 20000 in
theorem vInner_cex_col6 (sc idx : Nat) (f : Bool) :
    vInner constS0 BOARD_SIZE ⟨cexBoard, sc, idx, f⟩ 6 0 = ⟨cexBoard, sc, idx, f⟩ := rfl

set_option maxRecDepth 20000 in
theorem vInner_cex_col7 (sc idx : Nat) (f : Bool) :
    vInner constS0 BOARD_SIZE ⟨cexBoard, sc, idx, f⟩ 7 0 = ⟨cexBoard, sc, idx, f⟩ := rfl

/-- One full `checkMatches` pass on the adversarial board re-creates the
same board, scores 60, consumes three draws and reports a match — for every
draw index. -/
theorem cex_pass (idx : Nat) :
    checkMatches constS0 cexBoard idx = ⟨cexBoard, 60, idx + 3, true⟩ := by
  show (List.range BOARD_SIZE).foldl (fun st col => vInner constS0 BOARD_SIZE st col 0)
      ((List.range BOARD_SIZE).foldl (fun st row => hInner constS0 BOARD_SIZE st row 0)
        ⟨cexBoard, 0, idx, false⟩) = _
  rw [show List.range BOARD_SIZE = [0, 1, 2, 3, 4, 5, 6, 7] from rfl]
  simp only [List.foldl_cons, List.foldl_nil]
  rw [hInner_cex_row0, hInner_cex_row1, hInner_cex_row2, hInner_cex_row3,
    hInner_cex_row4, hInner_cex_row5, hInner_cex_row6, hInner_cex_row7,
    vInner_cex_col0, vInner_cex_col1, vInner_cex_col2, vInner_cex_col3,
    vInner_cex_col4, vInner_cex_col5, vInner_cex_col6, vInner_cex_col7]

/-- The cascade on the adversarial board: repeated `checkMatches` passes,
each fed the board and draw index the previous pass produced. -/
def cexIter : Nat → SwapSt
  | 0 => checkMatches constS0 cexBoard 0
  | n + 1 => checkMatches constS0 (cexIter n).board (cexIter n).idx

theorem cexIter_spec : ∀ n, (cexIter n).board = cexBoard ∧ (cexIter n).found = true := by
  intro n
  induction n with
  | zero =>
    show (checkMatches constS0 cexBoard 0).board = _ ∧
      (checkMatches constS0 cexBoard 0).found = _
    rw [cex_pass 0]
    exact ⟨rfl, rfl⟩
  | succ n ih =>
    show (checkMatches constS0 (cexIter n).board (cexIter n).idx).board = _ ∧
      (checkMatches constS0 (cexIter n).board (cexIter n).idx).found = _
    rw [ih.1, cex_pass]
    exact ⟨rfl, rfl⟩

/-- C2 counterexample: on the refill-in-place swap board an adversarial
random refill stream sustains the cascade past the cell-count bound — all of
the first 8*8+1 passes still find a match, so no fixed point is reached
within the grid's cell count. -/
theorem swap_cascade_exceeds_cell_bound :
    ((List.range (8 * 8 + 1)).all fun n => (cexIter n).found) = true := by
  rw [List.all_eq_true]
  intro n _
  exact (cexIter_spec n).2

/-- A board with one horizontal run of `L` copies of `s0` at row 2 starting
at column 0, over a match-free checker background. -/
def mkSwapBoard (L : Nat) : SBoard :=
  (List.range 8).map fun i => (List.range 8).map fun j =>
    if i = 2 ∧ j < L then ⟨MSym.s0, false⟩ else ⟨chkAt i j, false⟩

/-- A draw stream that refills the resolved run with the background checker
values, so the refill creates no new matches. -/
def mkStream (L : Nat) (k : Nat) : MSym :=
  if 4 ≤ L then chkAt 2 (k + 1) else chkAt 2 k

set_option maxRecDepth 200000 in
/-- C1: resolving the single run of 5 at row 2, cols 0-4 leaves the BOMB
special piece at the head (2,0) — not the rainbow — because
`createSpecialPiece` tests `length >= 4` first, which makes its
`length >= 5` rainbow branch unreachable: every run of length 5 or more
produces the bomb. -/
theorem createSpecialPiece_run5_bomb :
    getP (checkMatches (mkStream 5) (mkSwapBoard 5) 0).board 2 0
        = ⟨MSym.bomb, true⟩ ∧
      ∀ (stream : Nat → MSym) (idx n : Nat),
        (createSpecialPiece stream idx (n + 5)).1 = ⟨MSym.bomb, true⟩ := by
  constructor
  · rfl
  · intro stream idx n
    rfl

end Swap

namespace Pills

/-- A 20-by-10 pills grid with one isolated horizontal run of `L` REDs in
row 10, columns 0 to L-1, over an otherwise empty grid. -/
def mkPillGrid (L : Nat) : PGrid :=
  (List.range 20).map fun r => (List.range 10).map fun c =>
    if r = 10 ∧ c < L then ⟨BlockType.RED, false⟩ else emptyBlock

end Pills

set_option maxRecDepth 200000 in
/-- C3: resolving a single isolated run of length `L` adds exactly
`L * pointsPerCell` to the score: 20 points per cell on the refill-in-place
swap board (whose refill stream here restores the background, keeping the
run isolated) and 100 points per cell on the pair-drop pills board. -/
theorem run_score_policy :
    (∀ L, 3 ≤ L → L ≤ 8 →
      (Swap.checkMatches (Swap.mkStream L) (Swap.mkSwapBoard L) 0).score = L * 20) ∧
    (∀ L, 3 ≤ L → L ≤ 10 →
      Pills.scoreDelta 20 10 (Pills.mkPillGrid L) = L * 100) := by
  constructor
  · intro L h1 h2
    interval_cases L <;> decide
  · intro L h1 h2
    interval_cases L <;> decide

set_option maxRecDepth 200000 in
/-- Witness for C3 at `L = 5`: the swap board scores 100 (the spec's own
scenario) and the pills board scores 500. -/
theorem run_score_policy_witness :
    (Swap.checkMatches (Swap.mkStream 5) (Swap.mkSwapBoard 5) 0).score = 100 ∧
      Pills.scoreDelta 20 10 (Pills.mkPillGrid 5) = 500 :=
  ⟨run_score_policy.1 5 (by decide) (by decide),
   run_score_policy.2 5 (by decide) (by decide)⟩

namespace Swap

theorem Dims8_setP {b : SBoard} (h : Dims8 b) (r c : Nat) (p : GamePiece) :
    Dims8 (setP b r c p) := by
  constructor
  · show (b.set r _).length = BOARD_SIZE
    rw [List.length_set]
    exact h.1
  · intro row hrow
    by_cases hr : r < b.length
    · rcases List.mem_or_eq_of_mem_set hrow with hm | hm
      · exact h.2 _ hm
      · subst hm
        rw [List.length_set]
        have hmem : b.getD r [] ∈ b := by
          rw [List.getD_eq_getElem?_getD, List.getElem?_eq_getElem hr]
          simpa using List.getElem_mem hr
        exact h.2 _ hmem
    · rw [show setP b r c p = b from List.set_eq_of_length_le (by omega)] at hrow
      exact h.2 _ hrow

theorem Dims8_refillSegH (stream : Nat → MSym) :
    ∀ (n : Nat) (b : SBoard) (row col idx : Nat), Dims8 b →
      Dims8 (refillSegH stream n b row col idx).1 := by
  intro n
  induction n with
  | zero => intro b _ _ _ h; exact h
  | succ n ih =>
    intro b row col idx h
    exact ih _ _ _ _ (Dims8_setP h row col _)

theorem Dims8_refillSegV (stream : Nat → MSym) :
    ∀ (n : Nat) (b : SBoard) (row col idx : Nat), Dims8 b →
      Dims8 (refillSegV stream n b row col idx).1 := by
  intro n
  induction n with
  | zero => intro b _ _ _ h; exact h
  | succ n ih =>
    intro b row col idx h
    exact ih _ _ _ _ (Dims8_setP h row col _)

theorem Dims8_hInner (stream : Nat → MSym) :
    ∀ (fuel : Nat) (st : SwapSt) (row col : Nat), Dims8 st.board →
      Dims8 (hInner stream fuel st row col).board := by
  intro fuel
  induction fuel with
  | zero => intro st _ _ h; exact h
  | succ fuel ih =>
    intro st row col h
    rw [hInner]
    split
    · split
      · exact ih _ _ _ (Dims8_refillSegH stream _ _ _ _ _ (Dims8_setP h row col _))
      · exact ih _ _ _ h
    · exact h


theorem Dims8_vInner (stream : Nat → MSym) :
    ∀ (fuel : Nat) (st : SwapSt) (col row : Nat), Dims8 st.board →
      Dims8 (vInner stream fuel st col row).board := by
  intro fuel
  induction fuel with
  | zero => intro st _ _ h; exact h
  | succ fuel ih =>
    intro st col row h
    rw [vInner]
    split
    · split
      · exact ih _ _ _ (Dims8_refillSegV stream _ _ _ _ _ (Dims8_setP h row col _))
      · exact ih _ _ _ h
    · exact h

/-- C10: the swap board always holds a piece in every one of its 8-by-8
cells — `initializeBoard` creates it fully populated and every
`checkMatches` pass keeps it fully populated (its piece type has no Empty
sentinel; every removed cell is immediately rewritten with a special or
freshly drawn piece). -/
theorem board_always_populated :
    (∀ stream, Dims8 (initializeBoard stream)) ∧
      (∀ stream b idx, Dims8 b → Dims8 (checkMatches stream b idx).board) := by
  constructor
  · intro stream
    constructor
    · simp [initializeBoard, BOARD_SIZE]
    · intro row hrow
      rw [initializeBoard] at hrow
      obtain ⟨i, _, rfl⟩ := List.mem_map.mp hrow
      simp [BOARD_SIZE]
  · intro stream b idx hd
    rw [checkMatches]
    have hfold : ∀ (l : List Nat) (st : SwapSt), Dims8 st.board →
        Dims8 ((l.foldl (fun st row => hInner stream BOARD_SIZE st row 0) st).board) := by
      intro l
      induction l with
      | nil => intro st h; exact h
      | cons x xs ih =>
        intro st h
        exact ih _ (Dims8_hInner stream _ _ _ _ h)
    have vfold : ∀ (l : List Nat) (st : SwapSt), Dims8 st.board →
        Dims8 ((l.foldl (fun st col => vInner stream BOARD_SIZE st col 0) st).board) := by
      intro l
      induction l with
      | nil => intro st h; exact h
      | cons x xs ih =>
        intro st h
        exact ih _ (Dims8_vInner stream _ _ _ _ h)
    exact vfold _ _ (hfold _ _ hd)

/-- Witness for C10: a freshly initialized board is 8-by-8 and remains so
after a `checkMatches` pass. -/
theorem board_always_populated_witness :
    Dims8 (checkMatches constS0 (initializeBoard constS0) 0).board :=
  board_always_populated.2 constS0 (initializeBoard constS0) 0 ⟨by decide, by decide⟩

end Swap

namespace Mahjong

/-- A tile of the pair-matching game: identity, symbol, pixel position,
layer, and visibility. -/
structure Tile where
  id : Nat
  type : Nat
  x : Int
  y : Int
  z : Int
  isVisible : Bool
deriving DecidableEq, Repr

/-- Tile pixel width from the source. -/
def TILE_WIDTH : Int := 40

/-- Tile pixel height from the source. -/
def TILE_HEIGHT : Int := 50

/-- `isTileFree` from the source: blocked when a visible tile exactly one
layer above overlaps the footprint; otherwise free when the left or the
right side (same layer, same row band) has no visible tile within
`TILE_WIDTH + 5` pixels. -/
def isTileFree (tiles : List Tile) (tile : Tile) : Bool :=
  let coveringTile := tiles.find? fun t =>
    t.isVisible && decide (t.z = tile.z + 1) &&
      decide (|t.x - tile.x| < TILE_WIDTH) && decide (|t.y - tile.y| < TILE_HEIGHT)
  if coveringTile.isSome then false
  else
    let leftNeighbor := tiles.find? fun t =>
      t.isVisible && decide (t.z = tile.z) && decide (t.id ≠ tile.id) &&
        decide (|t.y - tile.y| < TILE_HEIGHT / 2) && decide (t.x < tile.x) &&
        decide (tile.x - t.x < TILE_WIDTH + 5)
    let rightNeighbor := tiles.find? fun t =>
      t.isVisible && decide (t.z = tile.z) && decide (t.id ≠ tile.id) &&
        decide (|t.y - tile.y| < TILE_HEIGHT / 2) && decide (t.x > tile.x) &&
        decide (t.x - tile.x < TILE_WIDTH + 5)
    !leftNeighbor.isSome || !rightNeighbor.isSome

/-- Modelled from the spec: the claim's selectability rule, word for word —
(a) no visible tile on a STRICTLY HIGHER layer overlaps the footprint, and
(b) at least one lateral side (same layer, same row band) has no adjacent
visible tile WITHIN ONE TILE-WIDTH. -/
def selectableSpec (tiles : List Tile) (tile : Tile) : Prop :=
  (¬ ∃ t ∈ tiles, t.isVisible = true ∧ t.z > tile.z ∧
      |t.x - tile.x| < TILE_WIDTH ∧ |t.y - tile.y| < TILE_HEIGHT) ∧
  ((¬ ∃ t ∈ tiles, t.isVisible = true ∧ t.z = tile.z ∧ t.id ≠ tile.id ∧
      |t.y - tile.y| < TILE_HEIGHT / 2 ∧ t.x < tile.x ∧ tile.x - t.x ≤ TILE_WIDTH) ∨
   (¬ ∃ t ∈ tiles, t.isVisible = true ∧ t.z = tile.z ∧ t.id ≠ tile.id ∧
      |t.y - tile.y| < TILE_HEIGHT / 2 ∧ t.x > tile.x ∧ t.x - tile.x ≤ TILE_WIDTH))

/-- The rule the code actually implements, as a proposition: the cover check
looks only at layer `z + 1`, and lateral adjacency uses the threshold
`TILE_WIDTH + 5`. -/
def selectableAmended (tiles : List Tile) (tile : Tile) : Prop :=
  (¬ ∃ t ∈ tiles, t.isVisible = true ∧ t.z = tile.z + 1 ∧
      |t.x - tile.x| < TILE_WIDTH ∧ |t.y - tile.y| < TILE_HEIGHT) ∧
  ((¬ ∃ t ∈ tiles, t.isVisible = true ∧ t.z = tile.z ∧ t.id ≠ tile.id ∧
      |t.y - tile.y| < TILE_HEIGHT / 2 ∧ t.x < tile.x ∧ tile.x - t.x < TILE_WIDTH + 5) ∨
   (¬ ∃ t ∈ tiles, t.isVisible = true ∧ t.z = tile.z ∧ t.id ≠ tile.id ∧
      |t.y - tile.y| < TILE_HEIGHT / 2 ∧ t.x > tile.x ∧ t.x - tile.x < TILE_WIDTH + 5))

/-- The tile under test in the C9 counterexample, at x = 100. -/
def tileT : Tile := ⟨0, 0, 100, 0, 0, true⟩

/-- A left neighbor 42 pixels away: beyond one tile-width, inside the
code's `TILE_WIDTH + 5` threshold. -/
def tileL : Tile := ⟨1, 1, 58, 0, 0, true⟩

/-- A right neighbor 42 pixels away. -/
def tileR : Tile := ⟨2, 2, 142, 0, 0, true⟩

/-- The C9 counterexample board. -/
def cexTiles : List Tile := [tileT, tileL, tileR]

/-- C9 counterexample: with both lateral neighbors 42 pixels away, the
claim's rule says the tile is selectable (42 exceeds one tile-width of 40)
but `isTileFree` returns false (42 is within its `TILE_WIDTH + 5 = 45`
threshold). -/
theorem isTileFree_spec_cex :
    isTileFree cexTiles tileT = false ∧ selectableSpec cexTiles tileT := by
  constructor
  · decide
  · constructor
    · decide
    · left
      decide

/-- C9 (amended): `isTileFree` returns true exactly when no visible tile on
the layer exactly one above overlaps the footprint, and at least one lateral
side (same layer, row offset under `TILE_HEIGHT / 2`) has no visible tile
within `TILE_WIDTH + 5` pixels. -/
theorem isTileFree_iff (tiles : List Tile) (tile : Tile) :
    isTileFree tiles tile = true ↔ selectableAmended tiles tile := by
  have hcov : ((tiles.find? fun t =>
      t.isVisible && decide (t.z = tile.z + 1) &&
        decide (|t.x - tile.x| < TILE_WIDTH) &&
        decide (|t.y - tile.y| < TILE_HEIGHT)).isSome = true) ↔
      ∃ t ∈ tiles, t.isVisible = true ∧ t.z = tile.z + 1 ∧
        |t.x - tile.x| < TILE_WIDTH ∧ |t.y - tile.y| < TILE_HEIGHT := by
    rw [List.find?_isSome]
    constructor
    · rintro ⟨t, ht, hp⟩
      simp only [Bool.and_eq_true, decide_eq_true_eq] at hp
      exact ⟨t, ht, hp.1.1.1, hp.1.1.2, hp.1.2, hp.2⟩
    · rintro ⟨t, ht, h1, h2, h3, h4⟩
      refine ⟨t, ht, ?_⟩
      simp only [Bool.and_eq_true, decide_eq_true_eq]
      exact ⟨⟨⟨h1, h2⟩, h3⟩, h4⟩
  have hleft : ((tiles.find? fun t =>
      t.isVisible && decide (t.z = tile.z) && decide (t.id ≠ tile.id) &&
        decide (|t.y - tile.y| < TILE_HEIGHT / 2) && decide (t.x < tile.x) &&
        decide (tile.x - t.x < TILE_WIDTH + 5)).isSome = true) ↔
      ∃ t ∈ tiles, t.isVisible = true ∧ t.z = tile.z ∧ t.id ≠ tile.id ∧
        |t.y - tile.y| < TILE_HEIGHT / 2 ∧ t.x < tile.x ∧
        tile.x - t.x < TILE_WIDTH + 5 := by
    rw [List.find?_isSome]
    constructor
    · rintro ⟨t, ht, hp⟩
      simp only [Bool.and_eq_true, decide_eq_true_eq] at hp
      obtain ⟨⟨⟨⟨⟨h1, h2⟩, h3⟩, h4⟩, h5⟩, h6⟩ := hp
      exact ⟨t, ht, h1, h2, h3, h4, h5, h6⟩
    · rintro ⟨t, ht, h1, h2, h3, h4, h5, h6⟩
      refine ⟨t, ht, ?_⟩
      simp only [Bool.and_eq_true, decide_eq_true_eq]
      exact ⟨⟨⟨⟨⟨h1, h2⟩, h3⟩, h4⟩, h5⟩, h6⟩
  have hright : ((tiles.find? fun t =>
      t.isVisible && decide (t.z = tile.z) && decide (t.id ≠ tile.id) &&
        decide (|t.y - tile.y| < TILE_HEIGHT / 2) && decide (t.x > tile.x) &&
        decide (t.x - tile.x < TILE_WIDTH + 5)).isSome = true) ↔
      ∃ t ∈ tiles, t.isVisible = true ∧ t.z = tile.z ∧ t.id ≠ tile.id ∧
        |t.y - tile.y| < TILE_HEIGHT / 2 ∧ t.x > tile.x ∧
        t.x - tile.x < TILE_WIDTH + 5 := by
    rw [List.find?_isSome]
    constructor
    · rintro ⟨t, ht, hp⟩
      simp only [Bool.and_eq_true, decide_eq_true_eq] at hp
      obtain ⟨⟨⟨⟨⟨h1, h2⟩, h3⟩, h4⟩, h5⟩, h6⟩ := hp
      exact ⟨t, ht, h1, h2, h3, h4, h5, h6⟩
    · rintro ⟨t, ht, h1, h2, h3, h4, h5, h6⟩
      refine ⟨t, ht, ?_⟩
      simp only [Bool.and_eq_true, decide_eq_true_eq]
      exact ⟨⟨⟨⟨⟨h1, h2⟩, h3⟩, h4⟩, h5⟩, h6⟩
  simp only [isTileFree]
  split
  · rename_i hs
    constructor
    · intro hf
      cases hf
    · rintro ⟨h1, _⟩
      exact absurd (hcov.mp hs) h1
  · rename_i hs
    have hA : ¬ ∃ t ∈ tiles, t.isVisible = true ∧ t.z = tile.z + 1 ∧
        |t.x - tile.x| < TILE_WIDTH ∧ |t.y - tile.y| < TILE_HEIGHT :=
      fun he => hs (hcov.mpr he)
    simp only [Bool.or_eq_true, Bool.not_eq_true']
    constructor
    · rintro (hl | hr)
      · refine ⟨hA, Or.inl ?_⟩
        intro he
        rw [hleft.mpr he] at hl
        cases hl
      · refine ⟨hA, Or.inr ?_⟩
        intro he
        rw [hright.mpr he] at hr
        cases hr
    · rintro ⟨_, hl | hr⟩
      · left
        cases hls : (tiles.find? fun t =>
            t.isVisible && decide (t.z = tile.z) && decide (t.id ≠ tile.id) &&
              decide (|t.y - tile.y| < TILE_HEIGHT / 2) && decide (t.x < tile.x) &&
              decide (tile.x - t.x < TILE_WIDTH + 5)).isSome
        · rfl
        · exact absurd (hleft.mp hls) hl
      · right
        cases hrs : (tiles.find? fun t =>
            t.isVisible && decide (t.z = tile.z) && decide (t.id ≠ tile.id) &&
              decide (|t.y - tile.y| < TILE_HEIGHT / 2) && decide (t.x > tile.x) &&
              decide (t.x - tile.x < TILE_WIDTH + 5)).isSome
        · rfl
        · exact absurd (hright.mp hrs) hr

end Mahjong
